import Mathlib

/-!
Verification of the Consul `StateStore` (consul/state_store.go) against its
natural-language specification.

The store's logical tables are embedded as Lean lists; Go strings are
embedded as `List Char` (one `Char` per byte, with byte-lexicographic
ordering).  The MDB table layer (`MDBTable`) and the `structs` record
package are collaborators of the store whose sources are not part of this
repository snapshot; their behaviour (upsert on primary key, prefix scans
in ascending key order, delete counts, watermark updates) is modelled from
the specification, as noted on each definition.  The `StateStore` methods
themselves are translated directly from `state_store.go`.
-/

namespace Consul

/-- Go strings, one `Char` per byte. -/
abbrev Str := List Char

/-- Byte-lexicographic strict order on strings (Go's `<` on strings /
byte-wise comparison used by the MDB cursor ordering). -/
def lexLt : Str → Str → Bool
  | [], [] => false
  | [], _ :: _ => true
  | _ :: _, [] => false
  | a :: as, b :: bs => if a = b then lexLt as bs else decide (a < b)

/-- `isPre p l` holds when `p` is a prefix of `l` (Go `strings.HasPrefix`,
also the match function of the virtual `id_prefix` index). -/
def isPre : Str → Str → Bool
  | [], _ => true
  | _ :: _, [] => false
  | a :: as, b :: bs => decide (a = b) && isPre as bs

/-- `findSub sub hay` is the least index at which `sub` occurs inside
`hay`, or `none` (Go `strings.Index`, with `none` for `-1`). -/
def findSub (sub : Str) : Str → Option Nat
  | [] => if isPre sub [] then some 0 else none
  | c :: t => if isPre sub (c :: t) then some 0 else (findSub sub t).map (· + 1)

/-- Modelled from the spec: `GetTxn` on a unique index returns the row whose
index key equals the requested key (at most one row). -/
def getBy {α κ : Type} [DecidableEq κ] (key : α → κ) (k : κ) (l : List α) : Option α :=
  l.find? (fun y => decide (key y = k))

/-- Modelled from the spec: `InsertTxn` on a table with a unique primary
index has upsert semantics — the row replaces any existing row with the
same primary key, otherwise it is appended. -/
def upsertBy {α κ : Type} [DecidableEq κ] (key : α → κ) (x : α) : List α → List α
  | [] => [x]
  | y :: rest => if key y = key x then x :: rest else y :: upsertBy key x rest

/-- Modelled from the spec: `DeleteTxn` removes every row matching the
given index parts and returns how many rows were deleted. -/
def deleteWhere {α : Type} (p : α → Bool) (l : List α) : Nat × List α :=
  (l.countP p, l.filter (fun x => !(p x)))

/-! ## Record types (modelled from the spec's data-model table; the Go
`structs` package is not part of this repository snapshot) -/

/-- Modelled from the spec: `structs.Node` — `{Node, Address}`. -/
structure Node where
  Node : Str
  Address : Str
deriving DecidableEq

/-- Modelled from the spec: `structs.ServiceNode` —
`{Node, Address, ServiceID, ServiceName, ServiceTags, ServicePort}`. -/
structure ServiceNode where
  Node : Str
  Address : Str
  ServiceID : Str
  ServiceName : Str
  ServiceTags : List Str
  ServicePort : Nat
deriving DecidableEq

/-- Modelled from the spec: `structs.NodeService` — `{ID, Service, Tags, Port}`. -/
structure NodeService where
  ID : Str
  Service : Str
  Tags : List Str
  Port : Nat
deriving DecidableEq

/-- Modelled from the spec: `structs.HealthCheck` —
`{Node, CheckID, Name, Status, Notes, ServiceID, ServiceName}`. -/
structure HealthCheck where
  Node : Str
  CheckID : Str
  Name : Str
  Status : Str
  Notes : Str
  ServiceID : Str
  ServiceName : Str
deriving DecidableEq

/-- Modelled from the spec: `structs.DirEntry` —
`{Key, Value, Flags, CreateIndex, ModifyIndex}` (indexes are uint64,
embedded as `Nat` since only assignment, `max` and comparison occur). -/
structure DirEntry where
  Key : Str
  Value : Str
  Flags : Nat
  CreateIndex : Nat
  ModifyIndex : Nat
deriving DecidableEq

/-- Modelled from the spec: `structs.Session` — `{ID, Node, Name, Checks, CreateIndex}`. -/
structure Session where
  ID : Str
  Node : Str
  Name : Str
  Checks : List Str
  CreateIndex : Nat
deriving DecidableEq

/-- The `sessionCheck` cross-reference row (state_store.go lines 59-63). -/
structure SessionCheckRow where
  Node : Str
  CheckID : Str
  Session : Str
deriving DecidableEq

/-- The six logical tables; used to report which `NotifyGroup`s fire. -/
inductive TableId where
  | nodes
  | services
  | checks
  | kvs
  | sessions
  | sessionChecks
deriving DecidableEq

/-- The whole store: one row list and one last-index watermark per table.
The `kvs` list is kept in ascending `Key` order (the MDB scan order);
the other tables are only accessed by exact-match or filter, so their
order is irrelevant to the modelled operations. -/
structure StoreState where
  nodes : List Node
  services : List ServiceNode
  checks : List HealthCheck
  kvs : List DirEntry
  sessions : List Session
  sessionChecks : List SessionCheckRow
  nodeIndex : Nat
  serviceIndex : Nat
  checkIndex : Nat
  kvsIndex : Nat
  sessionIndex : Nat
  sessionCheckIndex : Nat
deriving DecidableEq

/-- Modelled from the spec: lookup on the kvs table's unique `id` index
(`GetTxn(tx, "id", key)`, first result). -/
def kvsGet (l : List DirEntry) (k : Str) : Option DirEntry :=
  l.find? (fun e => decide (e.Key = k))

/-- Modelled from the spec: `InsertTxn` into the kvs table — upsert on the
primary `Key`, keeping the rows in ascending byte-lexicographic key order
(the MDB cursor order used by prefix scans). -/
def kvsInsert (d : DirEntry) : List DirEntry → List DirEntry
  | [] => [d]
  | e :: rest =>
    if lexLt d.Key e.Key then d :: e :: rest
    else if d.Key = e.Key then d :: rest
    else e :: kvsInsert d rest

/-! ## KVS write methods (translated from state_store.go) -/

/-- `KVSSet(index, d)` (state_store.go lines 890-921): read the prior
entry; a new key gets `CreateIndex := index`, an existing key keeps its
prior `CreateIndex`; `ModifyIndex := index` always; upsert; set the kvs
watermark to `index`; notify the kvs watchers. -/
def KVSSet (st : StoreState) (index : Nat) (d : DirEntry) : StoreState × List TableId :=
  let res := kvsGet st.kvs d.Key
  let d' : DirEntry :=
    { d with
      CreateIndex := match res with
        | none => index
        | some e => e.CreateIndex
      ModifyIndex := index }
  ({ st with kvs := kvsInsert d' st.kvs, kvsIndex := index }, [TableId.kvs])

/-- `KVSRestore(d)` (state_store.go lines 923-937): insert the entry with
no precondition check; the function performs no watermark update and no
notification. -/
def KVSRestore (st : StoreState) (d : DirEntry) : StoreState × List TableId :=
  ({ st with kvs := kvsInsert d st.kvs }, [])

/-- `KVSCheckAndSet(index, d)` (state_store.go lines 1046-1092): check-and-set
keyed on `d.ModifyIndex`; on precondition failure return `false` with the
transaction aborted (state unchanged, no watermark update, no
notification); on success apply the `KVSSet` index rules, upsert, set the
watermark, and notify. -/
def KVSCheckAndSet (st : StoreState) (index : Nat) (d : DirEntry) :
    Bool × StoreState × List TableId :=
  let exist := kvsGet st.kvs d.Key
  if d.ModifyIndex = 0 ∧ exist ≠ none then
    (false, st, [])
  else if d.ModifyIndex > 0 ∧ (exist = none ∨ (∃ e, exist = some e ∧ e.ModifyIndex ≠ d.ModifyIndex)) then
    (false, st, [])
  else
    let d' : DirEntry :=
      { d with
        CreateIndex := match exist with
          | none => index
          | some e => e.CreateIndex
        ModifyIndex := index }
    (true, { st with kvs := kvsInsert d' st.kvs, kvsIndex := index }, [TableId.kvs])

/-- `kvsDeleteWithIndex(index, tableIndex, parts...)` (state_store.go lines
1023-1044), with the resolved delete predicate passed explicitly: delete
matching rows; only when at least one row was removed set the kvs
watermark to `index` and notify the kvs watchers. -/
def kvsDeleteWithIndex (st : StoreState) (index : Nat) (p : DirEntry → Bool) :
    StoreState × List TableId :=
  let r := deleteWhere p st.kvs
  if r.1 > 0 then
    ({ st with kvs := r.2, kvsIndex := index }, [TableId.kvs])
  else
    ({ st with kvs := r.2 }, [])

/-- `KVSDelete(index, key)` (state_store.go lines 1010-1013): delete one key. -/
def KVSDelete (st : StoreState) (index : Nat) (key : Str) : StoreState × List TableId :=
  kvsDeleteWithIndex st index (fun e => decide (e.Key = key))

/-- `KVSDeleteTree(index, prefix)` (state_store.go lines 1015-1021): an
empty prefix deletes every row, otherwise every row whose key begins with
the prefix. -/
def KVSDeleteTree (st : StoreState) (index : Nat) (pre : Str) : StoreState × List TableId :=
  if pre = [] then kvsDeleteWithIndex st index (fun _ => true)
  else kvsDeleteWithIndex st index (fun e => isPre pre e.Key)

/-! ## KVSListKeys (translated from state_store.go lines 959-1008) -/

/-- The aggregation loop of `KVSListKeys` (state_store.go lines 976-1002):
the stream delivers the prefix-matching entries in ascending key order;
`last` is the Go `last` variable (initially `""`).  With an empty
seperator every key is accumulated in full; otherwise a key whose tail
after the prefix contains the seperator is truncated just past its first
occurrence and emitted unless equal to `last`; a key with no further
seperator is emitted in full. -/
def listKeysAux (pre sep : Str) : List DirEntry → Str → List Str
  | [], _ => []
  | ent :: rest, last =>
    let after := ent.Key.drop pre.length
    if sep.length = 0 then
      ent.Key :: listKeysAux pre sep rest last
    else
      match findSub sep after with
      | some idx =>
        let toSep := ent.Key.take (pre.length + idx + sep.length)
        if last = toSep then listKeysAux pre sep rest last
        else toSep :: listKeysAux pre sep rest toSep
      | none => ent.Key :: listKeysAux pre sep rest last

/-- `KVSListKeys(prefix, seperator)` (state_store.go lines 959-1008): the
kvs watermark plus the aggregated keys of the `id_prefix` stream. -/
def KVSListKeys (st : StoreState) (pre sep : Str) : Nat × List Str :=
  (st.kvsIndex, listKeysAux pre sep (st.kvs.filter (fun e => isPre pre e.Key)) [])

/-- Follows the spec's words for `KVSListKeys` ("collapses the tail after
the first occurrence of `seperator` (found after the prefix) to its
inclusive boundary; entries with no further `seperator` are emitted in
full; when `seperator` is empty, emit every full key"): the emitted form
of one matching key. -/
def collapse (pre sep k : Str) : Str :=
  if sep.length = 0 then k
  else
    match findSub sep (k.drop pre.length) with
    | some i => k.take (pre.length + i + sep.length)
    | none => k

/-! ## Node / service / check methods (translated from state_store.go) -/

/-- `DeleteNodeService(index, node, id)` (state_store.go lines 459-485):
delete the matching services row (unique `id` index on `(Node, ServiceID)`)
and every checks row matching the `node` index `(Node, ServiceID)`; each
table's watermark is set to `index` and its watchers notified only when
that table lost at least one row. -/
def DeleteNodeService (st : StoreState) (index : Nat) (node id : Str) :
    StoreState × List TableId :=
  let rs := deleteWhere (fun s => decide (s.Node = node ∧ s.ServiceID = id)) st.services
  let rc := deleteWhere (fun c => decide (c.Node = node ∧ c.ServiceID = id)) st.checks
  let st1 :=
    if rs.1 > 0 then { st with services := rs.2, serviceIndex := index }
    else { st with services := rs.2 }
  let st2 :=
    if rc.1 > 0 then { st1 with checks := rc.2, checkIndex := index }
    else { st1 with checks := rc.2 }
  (st2, (if rs.1 > 0 then [TableId.services] else []) ++
        (if rc.1 > 0 then [TableId.checks] else []))

/-- `DeleteNode(index, node)` (state_store.go lines 487-521): delete all
services rows for the node (partial parts on the `id` index prefix-match
on `Node`), all checks rows for the node, and the nodes row; per-table
conditional watermark advance and notification as above. -/
def DeleteNode (st : StoreState) (index : Nat) (node : Str) :
    StoreState × List TableId :=
  let rs := deleteWhere (fun s => decide (s.Node = node)) st.services
  let rc := deleteWhere (fun c => decide (c.Node = node)) st.checks
  let rn := deleteWhere (fun n => decide (n.Node = node)) st.nodes
  let st1 :=
    if rs.1 > 0 then { st with services := rs.2, serviceIndex := index }
    else { st with services := rs.2 }
  let st2 :=
    if rc.1 > 0 then { st1 with checks := rc.2, checkIndex := index }
    else { st1 with checks := rc.2 }
  let st3 :=
    if rn.1 > 0 then { st2 with nodes := rn.2, nodeIndex := index }
    else { st2 with nodes := rn.2 }
  (st3, (if rs.1 > 0 then [TableId.services] else []) ++
        (if rc.1 > 0 then [TableId.checks] else []) ++
        (if rn.1 > 0 then [TableId.nodes] else []))

/-- `DeleteNodeCheck(index, node, id)` (state_store.go lines 674-691):
delete one checks row; conditional watermark advance and notification. -/
def DeleteNodeCheck (st : StoreState) (index : Nat) (node id : Str) :
    StoreState × List TableId :=
  let rc := deleteWhere (fun c => decide (c.Node = node ∧ c.CheckID = id)) st.checks
  if rc.1 > 0 then
    ({ st with checks := rc.2, checkIndex := index }, [TableId.checks])
  else
    ({ st with checks := rc.2 }, [])

/-- The two failure kinds of `EnsureCheck` ("Missing node registration",
"Missing service registration"). -/
inductive CheckErr where
  | missingNode
  | missingService
deriving DecidableEq

/-- `EnsureCheck(index, check)` (state_store.go lines 625-672): default an
empty `Status` to `"unknown"` (`structs.HealthUnknown`); require the node
to exist; when `ServiceID` is non-empty require the `(Node, ServiceID)`
services row and overwrite the check's `ServiceName` from it; upsert into
checks, set the checks watermark, notify.  An error aborts the
transaction: the state is returned unchanged and nothing is notified. -/
def EnsureCheck (st : StoreState) (index : Nat) (check : HealthCheck) :
    Option CheckErr × StoreState × List TableId :=
  -- `check.Status = "" → check.Status = HealthUnknown` is a field update in
  -- the source; the subsequent lookups read the unchanged Node/ServiceID.
  let check' : HealthCheck :=
    { check with Status := if check.Status = [] then "unknown".data else check.Status }
  match getBy (fun n => n.Node) check.Node st.nodes with
  | none => (some CheckErr.missingNode, st, [])
  | some _ =>
    if check.ServiceID = [] then
      (none,
       { st with checks := upsertBy (fun c => (c.Node, c.CheckID)) check' st.checks,
                 checkIndex := index },
       [TableId.checks])
    else
      match getBy (fun sv => (sv.Node, sv.ServiceID)) (check.Node, check.ServiceID) st.services with
      | none => (some CheckErr.missingService, st, [])
      | some srv =>
        (none,
         { st with checks := upsertBy (fun c => (c.Node, c.CheckID))
                     { check' with ServiceName := srv.ServiceName } st.checks,
                   checkIndex := index },
         [TableId.checks])

/-! ## Session methods (translated from state_store.go) -/

/-- The failure kinds of `SessionCreate` ("Missing node registration",
"Missing check '%s' registration", "Check '%s' is in critical state"). -/
inductive SessErr where
  | missingNode
  | missingCheck (id : Str)
  | criticalCheck (id : Str)
deriving DecidableEq

/-- The check-verification loop of `SessionCreate` (state_store.go lines
1118-1131): for each listed CheckID in order, fail if no checks row for
`(node, checkId)` exists, or if the stored status is exactly `"critical"`
(`structs.HealthCritical`); any other status is tolerated. -/
def firstSessionCheckErr (checks : List HealthCheck) (node : Str) : List Str → Option SessErr
  | [] => none
  | c :: rest =>
    match getBy (fun ch => (ch.Node, ch.CheckID)) (node, c) checks with
    | none => some (SessErr.missingCheck c)
    | some ch =>
      if ch.Status = "critical".data then some (SessErr.criticalCheck c)
      else firstSessionCheckErr checks node rest

/-- The ID-uniqueness loop of `SessionCreate` (state_store.go lines
1133-1144), translated exactly: the candidate `id` was generated once,
before the loop; each iteration re-queries the sessions table for the
same `id` and exits only when no row is found.  The loop body never
changes `id`, so the model takes `fuel` and returns `none` when the loop
has not exited within `fuel` iterations. -/
def sessionIdCheckLoop (sessions : List Session) (id : Str) : Nat → Option Str
  | 0 => none
  | fuel + 1 =>
    match getBy (fun s => s.ID) id sessions with
    | some _ => sessionIdCheckLoop sessions id fuel
    | none => some id

/-- `SessionCreate(index, session)` (state_store.go lines 1094-1172):
assign `CreateIndex := index`; verify the node exists; verify each listed
check exists and is not critical; run the ID-uniqueness loop on the
freshly generated UUID (`newId`); insert the session, one sessionChecks
row per listed check; set both watermarks to `index` and notify both
tables.  An error aborts the transaction (state unchanged, no
notification); `none` means the ID loop never terminated. -/
def SessionCreate (st : StoreState) (index : Nat) (sess : Session) (newId : Str)
    (fuel : Nat) : Option (Option SessErr × StoreState × List TableId) :=
  -- `session.CreateIndex = index` is a field update in the source; the
  -- verification steps read the unchanged Node/Checks fields.
  match getBy (fun n => n.Node) sess.Node st.nodes with
  | none => some (some SessErr.missingNode, st, [])
  | some _ =>
    match firstSessionCheckErr st.checks sess.Node sess.Checks with
    | some e => some (some e, st, [])
    | none =>
      match sessionIdCheckLoop st.sessions newId fuel with
      | none => none
      | some id =>
        let sess' : Session := { sess with CreateIndex := index, ID := id }
        let sessions' := upsertBy (fun s => s.ID) sess' st.sessions
        let sessionChecks' := sess.Checks.foldl
          (fun acc c =>
            upsertBy (fun r => (r.Node, r.CheckID, r.Session))
              { Node := sess.Node, CheckID := c, Session := id } acc)
          st.sessionChecks
        some (none,
          { st with sessions := sessions', sessionChecks := sessionChecks',
                    sessionIndex := index, sessionCheckIndex := index },
          [TableId.sessions, TableId.sessionChecks])

/-- `SessionRestore(session)` (state_store.go lines 1174-1213): insert the
session and its sessionChecks rows with no precondition checks; update
both watermarks with `SetMaxLastIndexTxn` semantics at the session's
baked-in `CreateIndex`; notify both tables. -/
def SessionRestore (st : StoreState) (sess : Session) : StoreState × List TableId :=
  let sessions' := upsertBy (fun s => s.ID) sess st.sessions
  let sessionChecks' := sess.Checks.foldl
    (fun acc c =>
      upsertBy (fun r => (r.Node, r.CheckID, r.Session))
        { Node := sess.Node, CheckID := c, Session := sess.ID } acc)
    st.sessionChecks
  let index := sess.CreateIndex
  ({ st with sessions := sessions', sessionChecks := sessionChecks',
             sessionIndex := max st.sessionIndex index,
             sessionCheckIndex := max st.sessionCheckIndex index },
   [TableId.sessions, TableId.sessionChecks])

/-! ## Query methods used by claim C10 (translated from state_store.go) -/

/-- `strContains` (a helper of the store not in this file of the source;
modelled from its use at state_store.go line 539 and 591: membership of a
string in a slice). -/
def strContains (l : List Str) (s : Str) : Bool :=
  l.contains s

/-- Zero value of `structs.ServiceNode` (Go `make` leaves elements at the
zero value when the join at state_store.go line 613 fails). -/
def zeroServiceNode : ServiceNode :=
  { Node := [], Address := [], ServiceID := [], ServiceName := [],
    ServiceTags := [], ServicePort := 0 }

/-- `parseServiceNodes` (state_store.go lines 600-623): one output slot
per input service row; on a successful join the row is emitted with the
node's `Address` filled in; when the nodes row cannot be found the slot
is skipped by `continue` and keeps its zero value. -/
def parseServiceNodes (nodes : List Node) (res : List ServiceNode) : List ServiceNode :=
  res.map (fun srv =>
    match getBy (fun n => n.Node) srv.Node nodes with
    | some n => { srv with Address := n.Address }
    | none => zeroServiceNode)

/-- The `{Node, Service, Checks}` triple of `structs.CheckServiceNode`
(modelled from the spec — the `structs` package is not in this snapshot). -/
structure CheckServiceNode where
  Node : Node
  Service : NodeService
  Checks : List HealthCheck
deriving DecidableEq

/-- Zero value of `structs.CheckServiceNode`. -/
def zeroCheckServiceNode : CheckServiceNode :=
  { Node := { Node := [], Address := [] },
    Service := { ID := [], Service := [], Tags := [], Port := 0 },
    Checks := [] }

/-- `parseCheckServiceNodes` (state_store.go lines 761-800): one output
slot per input service row; on a successful node join the slot is the
`{Node, Service, Checks}` triple where `Checks` is the service's checks
(`node` index on `(Node, ServiceID)`) followed by the node-wide checks
(`node` index on `(Node, "")`); when the node join fails the slot keeps
its zero value. -/
def parseCheckServiceNodes (nodes : List Node) (checks : List HealthCheck)
    (res : List ServiceNode) : List CheckServiceNode :=
  res.map (fun srv =>
    match getBy (fun n => n.Node) srv.Node nodes with
    | none => zeroCheckServiceNode
    | some n =>
      { Node := n,
        Service := { ID := srv.ServiceID, Service := srv.ServiceName,
                     Tags := srv.ServiceTags, Port := srv.ServicePort },
        Checks := checks.filter (fun c => decide (c.Node = srv.Node ∧ c.ServiceID = srv.ServiceID))
               ++ checks.filter (fun c => decide (c.Node = srv.Node ∧ c.ServiceID = [])) })

/-- The filtering loop of `serviceTagFilter` (state_store.go lines
585-598): an in-place swap-with-last removal over `l[i:n]`.  Each
iteration shrinks `n - i` by exactly one, so running with `fuel = n - i`
reproduces the Go loop exactly (structural recursion keeps the model
kernel-computable). -/
def stfGo (tag : Str) : Array ServiceNode → Nat → Nat → Nat → Array ServiceNode
  | l, _, n, 0 => l.extract 0 n
  | l, i, n, fuel + 1 =>
    if i < n then
      if strContains ((l[i]?.getD zeroServiceNode).ServiceTags) tag then
        stfGo tag l (i + 1) n fuel
      else
        stfGo tag (l.swap! i (n - 1)) i (n - 1) fuel
    else
      l.extract 0 n

/-- `serviceTagFilter(l, tag)` (state_store.go lines 585-598): drop the
service rows whose `ServiceTags` do not contain `tag` (by swapping each
non-matching row with the current last row and shrinking). -/
def serviceTagFilter (l : List ServiceNode) (tag : Str) : List ServiceNode :=
  (stfGo tag l.toArray 0 l.length l.length).toList

/-- `ServiceNodes(service)` (state_store.go lines 548-564): the group
watermark (max over nodes and services) plus the parse of the rows
matching the `service` index. -/
def ServiceNodes (st : StoreState) (service : Str) : Nat × List ServiceNode :=
  (max st.nodeIndex st.serviceIndex,
   parseServiceNodes st.nodes (st.services.filter (fun s => decide (s.ServiceName = service))))

/-- `ServiceTagNodes(service, tag)` (state_store.go lines 566-583): as
`ServiceNodes` with the tag filter applied before the parse. -/
def ServiceTagNodes (st : StoreState) (service tag : Str) : Nat × List ServiceNode :=
  (max st.nodeIndex st.serviceIndex,
   parseServiceNodes st.nodes
     (serviceTagFilter (st.services.filter (fun s => decide (s.ServiceName = service))) tag))

/-- `CheckServiceNodes(service)` (state_store.go lines 722-739). -/
def CheckServiceNodes (st : StoreState) (service : Str) : Nat × List CheckServiceNode :=
  (max st.nodeIndex (max st.serviceIndex st.checkIndex),
   parseCheckServiceNodes st.nodes st.checks
     (st.services.filter (fun s => decide (s.ServiceName = service))))

/-- `CheckServiceTagNodes(service, tag)` (state_store.go lines 741-759). -/
def CheckServiceTagNodes (st : StoreState) (service tag : Str) : Nat × List CheckServiceNode :=
  (max st.nodeIndex (max st.serviceIndex st.checkIndex),
   parseCheckServiceNodes st.nodes st.checks
     (serviceTagFilter (st.services.filter (fun s => decide (s.ServiceName = service))) tag))

/-! ## Order and prefix lemmas for byte strings -/

theorem lexLt_irrefl (a : Str) : lexLt a a = false := by
  induction a with
  | nil => rfl
  | cons c t ih => simp [lexLt, ih]

theorem lexLt_trans : ∀ {a b c : Str}, lexLt a b = true → lexLt b c = true → lexLt a c = true
  | [], [], _, h, _ => by simp [lexLt] at h
  | [], _ :: _, [], _, h => by simp [lexLt] at h
  | [], _ :: _, _ :: _, _, _ => rfl
  | _ :: _, [], _, h, _ => by simp [lexLt] at h
  | _ :: _, _ :: _, [], _, h => by simp [lexLt] at h
  | a :: as, b :: bs, c :: cs, h1, h2 => by
    simp only [lexLt] at h1 h2 ⊢
    by_cases hab : a = b
    · subst hab
      simp only [if_pos rfl] at h1
      by_cases hac : a = c
      · subst hac
        simp only [if_pos rfl] at h2 ⊢
        exact lexLt_trans h1 h2
      · simp only [if_neg hac] at h2 ⊢
        exact h2
    · by_cases hbc : b = c
      · subst hbc
        simp only [if_neg hab] at h1 ⊢
        exact h1
      · simp only [if_neg hab, decide_eq_true_eq] at h1
        simp only [if_neg hbc, decide_eq_true_eq] at h2
        have hac : a < c := lt_trans h1 h2
        simp [if_neg (ne_of_lt hac), hac]

theorem lexLt_asymm : ∀ {a b : Str}, lexLt a b = true → lexLt b a = false
  | [], [], h => by simp [lexLt] at h
  | [], _ :: _, _ => rfl
  | _ :: _, [], h => by simp [lexLt] at h
  | a :: as, b :: bs, h => by
    simp only [lexLt] at h ⊢
    by_cases hab : a = b
    · subst hab; simpa using lexLt_asymm (by simpa using h)
    · simp only [if_neg hab, decide_eq_true_eq] at h
      simp [if_neg (Ne.symm hab), not_lt_of_gt h]

theorem lexLt_connex : ∀ {a b : Str}, lexLt a b = false → lexLt b a = false → a = b
  | [], [], _, _ => rfl
  | [], _ :: _, h, _ => by simp [lexLt] at h
  | _ :: _, [], _, h => by simp [lexLt] at h
  | a :: as, b :: bs, h1, h2 => by
    simp only [lexLt] at h1 h2
    by_cases hab : a = b
    · subst hab
      simp only [if_pos rfl] at h1 h2
      exact congrArg (a :: ·) (lexLt_connex h1 h2)
    · simp only [if_neg hab, decide_eq_false_iff_not] at h1
      simp only [if_neg (Ne.symm hab), decide_eq_false_iff_not] at h2
      cases lt_or_gt_of_ne hab with
      | inl h => exact absurd h h1
      | inr h => exact absurd h h2

theorem isPre_iff : ∀ {p l : Str}, isPre p l = true ↔ ∃ r, l = p ++ r
  | [], l => by simp [isPre]
  | _ :: _, [] => by simp [isPre]
  | a :: as, b :: bs => by
    simp only [isPre, Bool.and_eq_true, decide_eq_true_eq]
    constructor
    · rintro ⟨rfl, h⟩
      obtain ⟨r, rfl⟩ := isPre_iff.1 h
      exact ⟨r, rfl⟩
    · rintro ⟨r, hr⟩
      cases hr
      exact ⟨rfl, isPre_iff.2 ⟨r, rfl⟩⟩

theorem isPre_length {p l : Str} (h : isPre p l = true) : p.length ≤ l.length := by
  obtain ⟨r, rfl⟩ := isPre_iff.1 h
  simp

theorem isPre_take (l : Str) (n : Nat) : isPre (l.take n) l = true :=
  isPre_iff.2 ⟨l.drop n, (List.take_append_drop n l).symm⟩

theorem isPre_refl (l : Str) : isPre l l = true :=
  isPre_iff.2 ⟨[], by simp⟩

theorem isPre_of_isPre_le {p q l : Str} (hp : isPre p l = true) (hq : isPre q l = true)
    (hle : p.length ≤ q.length) : isPre p q = true := by
  obtain ⟨r, rfl⟩ := isPre_iff.1 hp
  obtain ⟨s, hs⟩ := isPre_iff.1 hq
  refine isPre_iff.2 ⟨q.drop p.length, ?_⟩
  have hpt : p = q.take p.length := by
    have h1 : (p ++ r).take p.length = p := by simp
    rw [hs] at h1
    rw [← h1, List.take_append_eq_append_take, Nat.sub_eq_zero_of_le hle]
    simp
  conv_lhs => rw [← List.take_append_drop p.length q]
  rw [← hpt]

theorem isPre_not_lt : ∀ {p l : Str}, isPre p l = true → lexLt l p = false
  | [], l, _ => by cases l <;> rfl
  | _ :: _, [], h => by simp [isPre] at h
  | a :: as, b :: bs, h => by
    simp only [isPre, Bool.and_eq_true, decide_eq_true_eq] at h
    obtain ⟨rfl, h⟩ := h
    simpa [lexLt] using isPre_not_lt h

theorem lexLt_of_isPre_ne {p l : Str} (h : isPre p l = true) (hne : p ≠ l) :
    lexLt p l = true := by
  by_contra hlt
  exact hne (lexLt_connex (Bool.not_eq_true _ ▸ hlt) (isPre_not_lt h))

/-- If `p` is a prefix of `y` and `x < y`, then either `p` is also a
prefix of `x` or `x < p`. -/
theorem isPre_or_lt : ∀ {p x y : Str}, isPre p y = true → lexLt x y = true →
    isPre p x = true ∨ lexLt x p = true
  | [], _, _, _, _ => Or.inl rfl
  | _ :: _, [], _, _, _ => Or.inr rfl
  | p :: ps, a :: as, [], _, hlt => by simp [lexLt] at hlt
  | p :: ps, a :: as, b :: bs, hpre, hlt => by
    simp only [isPre, Bool.and_eq_true, decide_eq_true_eq] at hpre
    obtain ⟨rfl, hpre⟩ := hpre
    simp only [lexLt] at hlt
    by_cases hab : a = p
    · subst hab
      simp only [if_pos rfl] at hlt
      rcases isPre_or_lt hpre hlt with h | h
      · exact Or.inl (by simp [isPre, h])
      · exact Or.inr (by simp [lexLt, h])
    · simp only [if_neg hab, decide_eq_true_eq] at hlt
      exact Or.inr (by simp [lexLt, if_neg hab, hlt])

/-! ## findSub lemmas -/

theorem findSub_some : ∀ {hay : Str} {i : Nat} {sub : Str},
    findSub sub hay = some i → isPre sub (hay.drop i) = true
  | [], i, sub, h => by
    simp only [findSub] at h
    split at h
    · cases h; exact ‹isPre sub [] = true›
    · cases h
  | c :: t, i, sub, h => by
    simp only [findSub] at h
    split at h
    · cases h; exact ‹isPre sub (c :: t) = true›
    · cases hrec : findSub sub t with
      | none => rw [hrec] at h; cases h
      | some j =>
        rw [hrec] at h
        simp only [Option.map_some'] at h
        cases h
        have hres := findSub_some hrec
        exact hres

theorem findSub_none : ∀ {hay : Str} {sub : Str}, findSub sub hay = none →
    ∀ j, isPre sub (hay.drop j) = false
  | [], sub, h, j => by
    simp only [findSub] at h
    split at h
    · cases h
    · simpa using Bool.not_eq_true _ ▸ ‹¬ isPre sub [] = true›
  | c :: t, sub, h, j => by
    simp only [findSub] at h
    split at h
    · cases h
    · cases hrec : findSub sub t with
      | some k => rw [hrec] at h; cases h
      | none =>
        match j with
        | 0 => exact Bool.not_eq_true _ ▸ ‹¬ isPre sub (c :: t) = true›
        | j + 1 => exact findSub_none hrec j

theorem findSub_min : ∀ {hay : Str} {i : Nat} {sub : Str}, findSub sub hay = some i →
    ∀ j, isPre sub (hay.drop j) = true → i ≤ j
  | [], i, sub, h, j, hj => by
    simp only [findSub] at h
    split at h
    · cases h; exact Nat.zero_le j
    · cases h
  | c :: t, i, sub, h, j, hj => by
    simp only [findSub] at h
    split at h
    · cases h; exact Nat.zero_le j
    · cases hrec : findSub sub t with
      | none => rw [hrec] at h; cases h
      | some k =>
        rw [hrec] at h
        simp only [Option.map_some'] at h
        cases h
        match j with
        | 0 => exact absurd hj ‹¬ isPre sub (c :: t) = true›
        | j + 1 => exact Nat.succ_le_succ (findSub_min hrec j hj)

theorem findSub_isSome {hay sub : Str} {j : Nat} (h : isPre sub (hay.drop j) = true) :
    ∃ i, findSub sub hay = some i := by
  cases hf : findSub sub hay with
  | none => exact absurd h (by simp [findSub_none hf j])
  | some i => exact ⟨i, rfl⟩

theorem findSub_le : ∀ {hay : Str} {i : Nat} {sub : Str},
    findSub sub hay = some i → i ≤ hay.length
  | [], i, sub, h => by
    simp only [findSub] at h
    split at h
    · cases h; exact Nat.le_refl 0
    · cases h
  | c :: t, i, sub, h => by
    simp only [findSub] at h
    split at h
    · cases h; exact Nat.zero_le _
    · cases hrec : findSub sub t with
      | none => rw [hrec] at h; cases h
      | some j =>
        rw [hrec] at h
        simp only [Option.map_some'] at h
        cases h
        exact Nat.succ_le_succ (findSub_le hrec)

theorem findSub_length {hay sub : Str} {i : Nat} (h : findSub sub hay = some i) :
    i + sub.length ≤ hay.length := by
  have h1 := isPre_length (findSub_some h)
  have h2 := findSub_le h
  simp only [List.length_drop] at h1
  omega

/-! ## collapse lemmas -/

theorem isPre_take_eq {s l : Str} (h : isPre s l = true) : l.take s.length = s := by
  obtain ⟨r, rfl⟩ := isPre_iff.1 h
  exact List.take_left s r

/-- Whether the seperator occurs in `v` after the prefix region. -/
def hasSepAfter (pre sep v : Str) : Bool :=
  (findSub sep (v.drop pre.length)).isSome

theorem collapse_isPre (pre sep k : Str) : isPre (collapse pre sep k) k = true := by
  unfold collapse
  split
  · exact isPre_refl k
  · split
    · exact isPre_take k _
    · exact isPre_refl k

theorem collapse_some_eq {pre sep k : Str} {i : Nat} (hsl : sep.length ≠ 0)
    (hf : findSub sep (k.drop pre.length) = some i) :
    collapse pre sep k = k.take (pre.length + i + sep.length) := by
  unfold collapse
  rw [if_neg hsl, hf]

theorem collapse_none_eq {pre sep k : Str} (hf : findSub sep (k.drop pre.length) = none) :
    collapse pre sep k = k := by
  unfold collapse
  split
  · rfl
  · rw [hf]

theorem collapse_length {pre sep k : Str} {i : Nat} (hsl : sep.length ≠ 0)
    (hf : findSub sep (k.drop pre.length) = some i) :
    (collapse pre sep k).length = pre.length + i + sep.length := by
  rw [collapse_some_eq hsl hf]
  have hfl := findSub_length hf
  simp only [List.length_drop] at hfl
  simp only [List.length_take]
  omega

/-- The segment of the truncated key starting at the occurrence position
is exactly the seperator. -/
theorem collapse_seg {pre sep k : Str} {i : Nat}
    (hf : findSub sep (k.drop pre.length) = some i) :
    (k.take (pre.length + i + sep.length)).drop (pre.length + i) = sep := by
  rw [List.drop_take]
  have h1 : pre.length + i + sep.length - (pre.length + i) = sep.length := by omega
  rw [h1]
  have h2 : k.drop (pre.length + i) = (k.drop pre.length).drop i := by
    rw [List.drop_drop]
  rw [h2]
  exact isPre_take_eq (findSub_some hf)

/-- In the truncated form the seperator occurs after the prefix. -/
theorem collapse_some_hasSep {pre sep k : Str} {i : Nat} (hsl : sep.length ≠ 0)
    (hf : findSub sep (k.drop pre.length) = some i) :
    hasSepAfter pre sep (collapse pre sep k) = true := by
  rw [collapse_some_eq hsl hf]
  unfold hasSepAfter
  have hseg : ((k.take (pre.length + i + sep.length)).drop pre.length).drop i = sep := by
    rw [List.drop_drop]
    exact collapse_seg hf
  have hocc : isPre sep (((k.take (pre.length + i + sep.length)).drop pre.length).drop i) = true := by
    rw [hseg]; exact isPre_refl sep
  obtain ⟨j, hj⟩ := findSub_isSome hocc
  simp [hj]

theorem collapse_none_hasSep {pre sep k : Str} (hf : findSub sep (k.drop pre.length) = none) :
    hasSepAfter pre sep (collapse pre sep k) = false := by
  rw [collapse_none_eq hf]
  unfold hasSepAfter
  simp [hf]

/-- Monotonicity: the `collapse` images of two prefix-matching keys are
ordered like the keys (never strictly reversed). -/
theorem collapse_not_gt {pre sep k1 k2 : Str} (hlt : lexLt k1 k2 = true) :
    lexLt (collapse pre sep k2) (collapse pre sep k1) = false := by
  by_cases hsl : sep.length = 0
  · unfold collapse
    rw [if_pos hsl, if_pos hsl]
    exact lexLt_asymm hlt
  by_contra hgt
  replace hgt : lexLt (collapse pre sep k2) (collapse pre sep k1) = true :=
    Bool.of_not_eq_false hgt
  have ht1p : isPre (collapse pre sep k1) k1 = true := collapse_isPre pre sep k1
  have ht2p : isPre (collapse pre sep k2) k2 = true := collapse_isPre pre sep k2
  rcases isPre_or_lt ht2p hlt with ht2k1 | hk1t2
  · -- collapse of k2 is a prefix of k1
    cases hf2 : findSub sep (k2.drop pre.length) with
    | none =>
      rw [collapse_none_eq hf2] at ht2k1
      have := isPre_not_lt ht2k1
      rw [this] at hlt
      cases hlt
    | some i2 =>
      rw [collapse_some_eq hsl hf2] at ht2k1 hgt
      -- the seperator occurs in k1 at position pre.length + i2
      obtain ⟨r, hr⟩ := isPre_iff.1 ht2k1
      have hlen2 : (k2.take (pre.length + i2 + sep.length)).length
          = pre.length + i2 + sep.length := by
        have := collapse_length hsl hf2
        rwa [collapse_some_eq hsl hf2] at this
      have hocc1 : isPre sep (k1.drop (pre.length + i2)) = true := by
        rw [hr, List.drop_append_of_le_length (by omega)]
        rw [collapse_seg hf2]
        exact isPre_iff.2 ⟨r, rfl⟩
      have hocc1' : isPre sep ((k1.drop pre.length).drop i2) = true := by
        rw [List.drop_drop]
        exact hocc1
      obtain ⟨i1, hf1⟩ := findSub_isSome hocc1'
      have hi1 : i1 ≤ i2 := findSub_min hf1 i2 hocc1'
      have ht1eq : collapse pre sep k1 = k1.take (pre.length + i1 + sep.length) :=
        collapse_some_eq hsl hf1
      have hlen1 : (collapse pre sep k1).length = pre.length + i1 + sep.length :=
        collapse_length hsl hf1
      -- both collapses are prefixes of k1, the first no longer than the second
      have ht1k1 : isPre (collapse pre sep k1) k1 = true := collapse_isPre pre sep k1
      have hpp : isPre (collapse pre sep k1) (k2.take (pre.length + i2 + sep.length)) = true :=
        isPre_of_isPre_le ht1k1 ht2k1 (by omega)
      have := isPre_not_lt hpp
      rw [this] at hgt
      cases hgt
  · -- k1 < collapse of k2 < collapse of k1 ≤ k1: impossible
    have h3 : lexLt k1 (collapse pre sep k1) = true := lexLt_trans hk1t2 hgt
    have h4 := isPre_not_lt ht1p
    rw [h4] at h3
    cases h3

theorem lexLt_nil (a : Str) : lexLt a [] = false := by
  cases a <;> rfl

/-! ## listKeysAux lemmas -/

theorem listKeysAux_cons_empty {pre sep : Str} (hsl : sep.length = 0)
    (ent : DirEntry) (rest : List DirEntry) (last : Str) :
    listKeysAux pre sep (ent :: rest) last = ent.Key :: listKeysAux pre sep rest last := by
  simp only [listKeysAux, if_pos hsl]

theorem listKeysAux_cons_some {pre sep : Str} (hsl : sep.length ≠ 0)
    {ent : DirEntry} {i : Nat} (hf : findSub sep (ent.Key.drop pre.length) = some i)
    (rest : List DirEntry) (last : Str) :
    listKeysAux pre sep (ent :: rest) last =
      if last = ent.Key.take (pre.length + i + sep.length) then
        listKeysAux pre sep rest last
      else
        ent.Key.take (pre.length + i + sep.length) ::
          listKeysAux pre sep rest (ent.Key.take (pre.length + i + sep.length)) := by
  simp only [listKeysAux, if_neg hsl]
  rw [hf]

theorem listKeysAux_cons_none {pre sep : Str} (hsl : sep.length ≠ 0)
    {ent : DirEntry} (hf : findSub sep (ent.Key.drop pre.length) = none)
    (rest : List DirEntry) (last : Str) :
    listKeysAux pre sep (ent :: rest) last = ent.Key :: listKeysAux pre sep rest last := by
  simp only [listKeysAux, if_neg hsl]
  rw [hf]

/-- With an empty seperator the loop emits every key in full. -/
theorem listKeysAux_sepEmpty {pre sep : Str} (hsl : sep.length = 0) :
    ∀ (ks : List DirEntry) (last : Str),
    listKeysAux pre sep ks last = ks.map (fun e => e.Key)
  | [], _ => rfl
  | ent :: rest, last => by
    rw [listKeysAux_cons_empty hsl, List.map_cons, listKeysAux_sepEmpty hsl rest last]

/-- Every emitted string is the `collapse` of some input entry's key. -/
theorem listKeysAux_sound {pre sep : Str} : ∀ (ks : List DirEntry) (last v : Str),
    v ∈ listKeysAux pre sep ks last → ∃ e, e ∈ ks ∧ v = collapse pre sep e.Key
  | [], _, v, hv => by simp [listKeysAux] at hv
  | ent :: rest, last, v, hv => by
    by_cases hsl : sep.length = 0
    · rw [listKeysAux_cons_empty hsl] at hv
      rcases List.mem_cons.1 hv with rfl | hv
      · exact ⟨ent, List.mem_cons_self _ _, by unfold collapse; rw [if_pos hsl]⟩
      · obtain ⟨e, he, hev⟩ := listKeysAux_sound rest last v hv
        exact ⟨e, List.mem_cons_of_mem _ he, hev⟩
    · cases hf : findSub sep (ent.Key.drop pre.length) with
      | some i =>
        rw [listKeysAux_cons_some hsl hf] at hv
        by_cases hskip : last = ent.Key.take (pre.length + i + sep.length)
        · rw [if_pos hskip] at hv
          obtain ⟨e, he, hev⟩ := listKeysAux_sound rest last v hv
          exact ⟨e, List.mem_cons_of_mem _ he, hev⟩
        · rw [if_neg hskip] at hv
          rcases List.mem_cons.1 hv with rfl | hv
          · exact ⟨ent, List.mem_cons_self _ _, (collapse_some_eq hsl hf).symm⟩
          · obtain ⟨e, he, hev⟩ := listKeysAux_sound rest _ v hv
            exact ⟨e, List.mem_cons_of_mem _ he, hev⟩
      | none =>
        rw [listKeysAux_cons_none hsl hf] at hv
        rcases List.mem_cons.1 hv with rfl | hv
        · exact ⟨ent, List.mem_cons_self _ _, (collapse_none_eq hf).symm⟩
        · obtain ⟨e, he, hev⟩ := listKeysAux_sound rest last v hv
          exact ⟨e, List.mem_cons_of_mem _ he, hev⟩

/-- Every input entry's `collapse` is emitted, unless it equals the
running `last` value (which is only possible for a seperator-truncated
value of length at least that of the seperator). -/
theorem listKeysAux_complete {pre sep : Str} : ∀ (ks : List DirEntry) (last : Str)
    (e : DirEntry), e ∈ ks →
    collapse pre sep e.Key ∈ listKeysAux pre sep ks last ∨
      (collapse pre sep e.Key = last ∧ sep.length ≠ 0 ∧
        sep.length ≤ (collapse pre sep e.Key).length)
  | [], _, e, he => absurd he (List.not_mem_nil e)
  | ent :: rest, last, e, he => by
    by_cases hsl : sep.length = 0
    · rw [listKeysAux_cons_empty hsl]
      rcases List.mem_cons.1 he with rfl | he
      · refine Or.inl ?_
        have hck : collapse pre sep e.Key = e.Key := by unfold collapse; rw [if_pos hsl]
        rw [hck]; exact List.mem_cons_self _ _
      · rcases listKeysAux_complete rest last e he with h | h
        · exact Or.inl (List.mem_cons_of_mem _ h)
        · exact Or.inr h
    · rcases List.mem_cons.1 he with rfl | he
      · cases hf : findSub sep (e.Key.drop pre.length) with
        | some i =>
          rw [listKeysAux_cons_some hsl hf]
          by_cases hskip : last = e.Key.take (pre.length + i + sep.length)
          · rw [if_pos hskip]
            refine Or.inr ⟨?_, hsl, ?_⟩
            · rw [collapse_some_eq hsl hf, hskip]
            · rw [collapse_length hsl hf]; omega
          · rw [if_neg hskip]
            refine Or.inl ?_
            rw [collapse_some_eq hsl hf]
            exact List.mem_cons_self _ _
        | none =>
          rw [listKeysAux_cons_none hsl hf]
          refine Or.inl ?_
          rw [collapse_none_eq hf]
          exact List.mem_cons_self _ _
      · cases hf : findSub sep (ent.Key.drop pre.length) with
        | some i =>
          rw [listKeysAux_cons_some hsl hf]
          by_cases hskip : last = ent.Key.take (pre.length + i + sep.length)
          · rw [if_pos hskip]
            rcases listKeysAux_complete rest last e he with h | h
            · exact Or.inl h
            · exact Or.inr h
          · rw [if_neg hskip]
            rcases listKeysAux_complete rest
              (ent.Key.take (pre.length + i + sep.length)) e he with h | h
            · exact Or.inl (List.mem_cons_of_mem _ h)
            · -- the value equals the newly emitted head, which is in the output
              refine Or.inl ?_
              rw [h.1]
              exact List.mem_cons_self _ _
        | none =>
          rw [listKeysAux_cons_none hsl hf]
          rcases listKeysAux_complete rest last e he with h | h
          · exact Or.inl (List.mem_cons_of_mem _ h)
          · exact Or.inr h

/-- Master invariant for sortedness: on sorted input keys, with `last` a
lower bound of all collapsed values, the output is strictly ascending,
and every output value is at least `last`, equal to `last` only in the
full-key (no further seperator) form. -/
theorem listKeysAux_sorted {pre sep : Str} (hsl : sep.length ≠ 0) :
    ∀ (ks : List DirEntry) (last : Str),
    List.Pairwise (fun a b => lexLt a.Key b.Key = true) ks →
    (∀ e ∈ ks, lexLt (collapse pre sep e.Key) last = false) →
    List.Pairwise (fun a b => lexLt a b = true) (listKeysAux pre sep ks last) ∧
    (∀ v ∈ listKeysAux pre sep ks last,
      lexLt v last = false ∧ (v = last → hasSepAfter pre sep v = false))
  | [], last, _, _ => by simp [listKeysAux]
  | ent :: rest, last, hsort, hlast => by
    have hhead : ∀ e ∈ rest, lexLt ent.Key e.Key = true :=
      fun e he => List.rel_of_pairwise_cons hsort he
    have htail : List.Pairwise (fun a b => lexLt a.Key b.Key = true) rest :=
      List.Pairwise.of_cons hsort
    have hmono : ∀ e ∈ rest,
        lexLt (collapse pre sep e.Key) (collapse pre sep ent.Key) = false :=
      fun e he => collapse_not_gt (hhead e he)
    cases hf : findSub sep (ent.Key.drop pre.length) with
    | some i =>
      have hcoll : collapse pre sep ent.Key = ent.Key.take (pre.length + i + sep.length) :=
        collapse_some_eq hsl hf
      rw [listKeysAux_cons_some hsl hf]
      by_cases hskip : last = ent.Key.take (pre.length + i + sep.length)
      · rw [if_pos hskip]
        -- skipped: the collapsed value equals `last`; recurse with the same `last`
        refine listKeysAux_sorted hsl rest last htail ?_
        intro e he
        rw [hskip, ← hcoll]
        exact hmono e he
      · rw [if_neg hskip]
        obtain ⟨ihp, ihb⟩ := listKeysAux_sorted hsl rest
          (ent.Key.take (pre.length + i + sep.length)) htail
          (by intro e he; rw [← hcoll]; exact hmono e he)
        have hv0last : lexLt (ent.Key.take (pre.length + i + sep.length)) last = false := by
          rw [← hcoll]; exact hlast ent (List.mem_cons_self _ _)
        have hlastlt : lexLt last (ent.Key.take (pre.length + i + sep.length)) = true := by
          by_contra hc
          exact hskip (lexLt_connex (Bool.not_eq_true _ ▸ hc) hv0last)
        have hsepform : hasSepAfter pre sep (ent.Key.take (pre.length + i + sep.length)) = true := by
          rw [← hcoll]; exact collapse_some_hasSep hsl hf
        have hstrict : ∀ w ∈ listKeysAux pre sep rest (ent.Key.take (pre.length + i + sep.length)),
            lexLt (ent.Key.take (pre.length + i + sep.length)) w = true := by
          intro w hw
          obtain ⟨hge, heq⟩ := ihb w hw
          by_contra hc
          have hweq : w = ent.Key.take (pre.length + i + sep.length) :=
            lexLt_connex hge (Bool.not_eq_true _ ▸ hc)
          have hcontra := heq hweq
          rw [hweq, hsepform] at hcontra
          cases hcontra
        refine ⟨List.pairwise_cons.2 ⟨hstrict, ihp⟩, ?_⟩
        intro v hv
        rcases List.mem_cons.1 hv with rfl | hv
        · exact ⟨hv0last, fun hveq => absurd hveq.symm hskip⟩
        · have hgt : lexLt last v = true :=
            lexLt_trans hlastlt (hstrict v hv)
          refine ⟨lexLt_asymm hgt, fun hveq => ?_⟩
          rw [hveq, lexLt_irrefl] at hgt
          cases hgt
    | none =>
      have hcoll : collapse pre sep ent.Key = ent.Key := collapse_none_eq hf
      rw [listKeysAux_cons_none hsl hf]
      obtain ⟨ihp, ihb⟩ := listKeysAux_sorted hsl rest last htail
        (fun e he => hlast e (List.mem_cons_of_mem _ he))
      have hform : hasSepAfter pre sep ent.Key = false := by
        rw [← hcoll]; exact collapse_none_hasSep hf
      have hstrict : ∀ w ∈ listKeysAux pre sep rest last, lexLt ent.Key w = true := by
        intro w hw
        obtain ⟨e, he, rfl⟩ := listKeysAux_sound rest last w hw
        have hge : lexLt (collapse pre sep e.Key) ent.Key = false := by
          rw [← hcoll]; exact hmono e he
        by_contra hc
        have hweq : collapse pre sep e.Key = ent.Key :=
          lexLt_connex hge (Bool.not_eq_true _ ▸ hc)
        cases hfe : findSub sep (e.Key.drop pre.length) with
        | some j =>
          have h1 : hasSepAfter pre sep (collapse pre sep e.Key) = true :=
            collapse_some_hasSep hsl hfe
          rw [hweq, hform] at h1
          cases h1
        | none =>
          have h2 : collapse pre sep e.Key = e.Key := collapse_none_eq hfe
          rw [h2] at hweq
          have h3 := hhead e he
          rw [hweq, lexLt_irrefl] at h3
          cases h3
      refine ⟨List.pairwise_cons.2 ⟨hstrict, ihp⟩, ?_⟩
      intro v hv
      rcases List.mem_cons.1 hv with rfl | hv
      · refine ⟨?_, fun _ => hform⟩
        rw [← hcoll]
        exact hlast ent (List.mem_cons_self _ _)
      · exact ihb v hv

/-! ## kvs insert / get lemmas -/

theorem kvsGet_insert : ∀ (l : List DirEntry) (d : DirEntry),
    kvsGet (kvsInsert d l) d.Key = some d
  | [], d => by simp [kvsInsert, kvsGet]
  | e :: rest, d => by
    simp only [kvsInsert]
    by_cases h1 : lexLt d.Key e.Key
    · rw [if_pos h1]; simp [kvsGet]
    · rw [if_neg h1]
      by_cases h2 : d.Key = e.Key
      · rw [if_pos h2]; simp [kvsGet]
      · rw [if_neg h2]
        unfold kvsGet
        rw [List.find?_cons_of_neg _
          (by simp only [decide_eq_true_eq]; exact fun h => h2 h.symm)]
        exact kvsGet_insert rest d

/-! ## Write sequences over the kvs table (for the CreateIndex/ModifyIndex claim) -/

/-- A consensus-ordered kvs write: a `KVSSet` or a `KVSCheckAndSet`. -/
inductive KvsWrite where
  | set (index : Nat) (d : DirEntry)
  | cas (index : Nat) (d : DirEntry)
deriving DecidableEq

/-- The key a write addresses. -/
def KvsWrite.key : KvsWrite → Str
  | .set _ d => d.Key
  | .cas _ d => d.Key

/-- The consensus index a write carries. -/
def KvsWrite.idx : KvsWrite → Nat
  | .set i _ => i
  | .cas i _ => i

/-- Apply one write to the store (a failed CAS leaves the state as it was). -/
def applyWrite (st : StoreState) : KvsWrite → StoreState
  | .set i d => (KVSSet st i d).1
  | .cas i d => (KVSCheckAndSet st i d).2.1

/-- Whether the write succeeded (a `KVSSet` always does; a `KVSCheckAndSet`
succeeds when it returns `true`). -/
def writeOk (st : StoreState) : KvsWrite → Bool
  | .set _ _ => true
  | .cas i d => (KVSCheckAndSet st i d).1

/-- Apply a sequence of writes in order. -/
def applyWrites (st : StoreState) : List KvsWrite → StoreState
  | [] => st
  | w :: ws => applyWrites (applyWrite st w) ws

/-- Every write of the sequence succeeds in the state it runs in. -/
def allOk (st : StoreState) : List KvsWrite → Bool
  | [] => true
  | w :: ws => writeOk st w && allOk (applyWrite st w) ws

/-- The index of the last write of the sequence (or `dflt` for the empty one). -/
def lastIdx : List KvsWrite → Nat → Nat
  | [], dflt => dflt
  | w :: ws, _ => lastIdx ws w.idx

theorem KVSSet_get (st : StoreState) (i : Nat) (d : DirEntry) :
    kvsGet (KVSSet st i d).1.kvs d.Key =
      some { d with
        CreateIndex := match kvsGet st.kvs d.Key with
          | none => i
          | some e => e.CreateIndex
        ModifyIndex := i } := by
  simp only [KVSSet]
  exact kvsGet_insert st.kvs _

theorem KVSCheckAndSet_get {st : StoreState} {i : Nat} {d : DirEntry}
    (hok : (KVSCheckAndSet st i d).1 = true) :
    kvsGet (KVSCheckAndSet st i d).2.1.kvs d.Key =
      some { d with
        CreateIndex := match kvsGet st.kvs d.Key with
          | none => i
          | some e => e.CreateIndex
        ModifyIndex := i } := by
  simp only [KVSCheckAndSet] at hok ⊢
  split_ifs at hok ⊢ with h1 h2
  exact kvsGet_insert st.kvs _

theorem applyWrite_present {st : StoreState} {w : KvsWrite} {k : Str} {e : DirEntry}
    (hk : w.key = k) (hok : writeOk st w = true) (he : kvsGet st.kvs k = some e) :
    ∃ e', kvsGet (applyWrite st w).kvs k = some e' ∧
      e'.CreateIndex = e.CreateIndex ∧ e'.ModifyIndex = w.idx := by
  cases w with
  | set i d =>
    simp only [KvsWrite.key] at hk
    subst hk
    have hget := KVSSet_get st i d
    rw [he] at hget
    exact ⟨_, hget, rfl, rfl⟩
  | cas i d =>
    simp only [KvsWrite.key] at hk
    subst hk
    simp only [writeOk] at hok
    have hget := KVSCheckAndSet_get hok
    rw [he] at hget
    exact ⟨_, hget, rfl, rfl⟩

theorem applyWrite_absent {st : StoreState} {w : KvsWrite} {k : Str}
    (hk : w.key = k) (hok : writeOk st w = true) (he : kvsGet st.kvs k = none) :
    ∃ e', kvsGet (applyWrite st w).kvs k = some e' ∧
      e'.CreateIndex = w.idx ∧ e'.ModifyIndex = w.idx := by
  cases w with
  | set i d =>
    simp only [KvsWrite.key] at hk
    subst hk
    have hget := KVSSet_get st i d
    rw [he] at hget
    exact ⟨_, hget, rfl, rfl⟩
  | cas i d =>
    simp only [KvsWrite.key] at hk
    subst hk
    simp only [writeOk] at hok
    have hget := KVSCheckAndSet_get hok
    rw [he] at hget
    exact ⟨_, hget, rfl, rfl⟩

/-- Once the key is stored, every later successful write to it preserves
`CreateIndex` and stamps `ModifyIndex` with that write's index. -/
theorem applyWrites_preserve : ∀ (ws : List KvsWrite) (st : StoreState) (k : Str) (e : DirEntry),
    (∀ w ∈ ws, w.key = k) → allOk st ws = true → kvsGet st.kvs k = some e →
    ∃ e', kvsGet (applyWrites st ws).kvs k = some e' ∧
      e'.CreateIndex = e.CreateIndex ∧ e'.ModifyIndex = lastIdx ws e.ModifyIndex
  | [], st, k, e, _, _, he => ⟨e, he, rfl, rfl⟩
  | w :: ws, st, k, e, hkeys, hok, he => by
    simp only [allOk, Bool.and_eq_true] at hok
    obtain ⟨e1, he1, hc1, hm1⟩ :=
      applyWrite_present (hkeys w (List.mem_cons_self _ _)) hok.1 he
    obtain ⟨e', he', hc', hm'⟩ := applyWrites_preserve ws (applyWrite st w) k e1
      (fun u hu => hkeys u (List.mem_cons_of_mem _ hu)) hok.2 he1
    refine ⟨e', he', hc'.trans hc1, ?_⟩
    rw [hm', hm1]
    rfl

/-! ## upsert lemmas -/

theorem getBy_upsertBy {α κ : Type} [DecidableEq κ] (key : α → κ) (x : α) :
    ∀ l : List α, getBy key (key x) (upsertBy key x l) = some x
  | [] => by simp [getBy, upsertBy]
  | y :: rest => by
    simp only [upsertBy]
    by_cases h : key y = key x
    · rw [if_pos h]; simp [getBy]
    · rw [if_neg h]
      unfold getBy
      rw [List.find?_cons_of_neg _ (by simp only [decide_eq_true_eq]; exact h)]
      exact getBy_upsertBy key x rest

/-- The two CAS guards both failing is exactly the spec's success
condition. -/
theorem cas_success_cond {st : StoreState} {d : DirEntry}
    (h1 : ¬(d.ModifyIndex = 0 ∧ kvsGet st.kvs d.Key ≠ none))
    (h2 : ¬(d.ModifyIndex > 0 ∧ (kvsGet st.kvs d.Key = none ∨
        ∃ e, kvsGet st.kvs d.Key = some e ∧ e.ModifyIndex ≠ d.ModifyIndex))) :
    (d.ModifyIndex = 0 ∧ kvsGet st.kvs d.Key = none) ∨
      (d.ModifyIndex > 0 ∧ ∃ e, kvsGet st.kvs d.Key = some e ∧
        e.ModifyIndex = d.ModifyIndex) := by
  push_neg at h1 h2
  rcases Nat.eq_zero_or_pos d.ModifyIndex with hmi | hmi
  · exact Or.inl ⟨hmi, h1 hmi⟩
  · obtain ⟨hne, hall⟩ := h2 hmi
    cases hx : kvsGet st.kvs d.Key with
    | none => exact absurd hx hne
    | some e => exact Or.inr ⟨hmi, e, rfl, hall e hx⟩

/-! ## Concrete stores used by the witnesses -/

/-- The empty store. -/
def emptyStore : StoreState :=
  { nodes := [], services := [], checks := [], kvs := [], sessions := [],
    sessionChecks := [], nodeIndex := 0, serviceIndex := 0, checkIndex := 0,
    kvsIndex := 0, sessionIndex := 0, sessionCheckIndex := 0 }

/-- A KV entry with the given key, all other fields at simple defaults. -/
def mkEntry (s : String) : DirEntry :=
  { Key := s.data, Value := [], Flags := 0, CreateIndex := 1, ModifyIndex := 1 }

/-- The spec's `KVSListKeys` example store: keys
`foo/a, foo/a/b, foo/a/c, foo/b, foo/b/d`. -/
def listDemoStore : StoreState :=
  { emptyStore with
    kvs := [mkEntry "foo/a", mkEntry "foo/a/b", mkEntry "foo/a/c",
            mkEntry "foo/b", mkEntry "foo/b/d"],
    kvsIndex := 7 }

/-- A store holding key `c` with ModifyIndex 20 at watermark 20. -/
def casDemoStore : StoreState :=
  { emptyStore with
    kvs := [{ Key := "c".data, Value := "z".data, Flags := 0,
              CreateIndex := 20, ModifyIndex := 20 }],
    kvsIndex := 20 }

/-! ## C1 -/

/-- C1: `KVSCheckAndSet(index, entry)` succeeds iff either
`entry.ModifyIndex = 0` and no entry is stored under `entry.Key`, or
`entry.ModifyIndex > 0` and the stored entry's ModifyIndex equals it
exactly. -/
theorem kvs_cas_success_iff (st : StoreState) (index : Nat) (d : DirEntry) :
    (KVSCheckAndSet st index d).1 = true ↔
      (d.ModifyIndex = 0 ∧ kvsGet st.kvs d.Key = none) ∨
      (d.ModifyIndex > 0 ∧ ∃ e, kvsGet st.kvs d.Key = some e ∧
        e.ModifyIndex = d.ModifyIndex) := by
  simp only [KVSCheckAndSet]
  split_ifs with h1 h2
  · simp only [Bool.false_eq_true, false_iff]
    rintro (⟨hmi, hnone⟩ | ⟨hmi, e, he, _⟩)
    · exact h1.2 hnone
    · omega
  · simp only [Bool.false_eq_true, false_iff]
    rintro (⟨hmi, hnone⟩ | ⟨hmi, e, he, hemi⟩)
    · omega
    · rcases h2.2 with hnone | ⟨e', he', hne⟩
      · rw [he] at hnone; cases hnone
      · rw [he] at he'
        cases he'
        exact hne hemi
  · simp only [true_iff]
    exact cas_success_cond h1 h2

/-! ## C2 -/

/-- C2 (code bug): when the freshly generated session ID collides with a
stored session's ID, the uniqueness-check loop of `SessionCreate` never
terminates — its body re-queries the same candidate without generating a
new ID, for every iteration bound `fuel`. -/
theorem session_id_loop_never_rerolls (fuel : Nat) :
    sessionIdCheckLoop
      [{ ID := "5e8f3a".data, Node := "n1".data, Name := [], Checks := [],
         CreateIndex := 1 }]
      "5e8f3a".data fuel = none := by
  induction fuel with
  | zero => rfl
  | succ n ih => simpa [sessionIdCheckLoop, getBy] using ih

/-! ## C3 -/

/-- C3 counterexample: `KVSRestore` of an entry carrying index 10 into a
store whose kvs watermark is 5 leaves the watermark at 5 — it is not
raised to the newer index, contradicting the claim that both restore
functions update the watermark with max semantics. -/
theorem kvs_restore_no_watermark_cex :
    ({ emptyStore with kvsIndex := 5 } : StoreState).kvsIndex = 5 ∧
    ({ mkEntry "a" with ModifyIndex := 10 } : DirEntry).ModifyIndex = 10 ∧
    (KVSRestore { emptyStore with kvsIndex := 5 }
        { mkEntry "a" with ModifyIndex := 10 }).1.kvsIndex = 5 ∧
    ¬ (KVSRestore { emptyStore with kvsIndex := 5 }
        { mkEntry "a" with ModifyIndex := 10 }).1.kvsIndex = 10 := by
  decide

/-- C3 (amended): `KVSRestore` inserts the entry with no precondition
checks and leaves the kvs watermark untouched (so it never decreases,
but is also never raised); `SessionRestore` inserts with no precondition
checks and updates both session-table watermarks with max semantics, so
restoring an older session does not rewind them and a newer one raises
them to its CreateIndex. -/
theorem restore_watermark_spec :
    (∀ st d, (KVSRestore st d).1.kvs = kvsInsert d st.kvs ∧
      (KVSRestore st d).1.kvsIndex = st.kvsIndex ∧
      (KVSRestore st d).2 = []) ∧
    (∀ st sess,
      (SessionRestore st sess).1.sessions
          = upsertBy (fun s => s.ID) sess st.sessions ∧
      (SessionRestore st sess).1.sessionIndex
          = max st.sessionIndex sess.CreateIndex ∧
      (SessionRestore st sess).1.sessionCheckIndex
          = max st.sessionCheckIndex sess.CreateIndex ∧
      st.sessionIndex ≤ (SessionRestore st sess).1.sessionIndex ∧
      st.sessionCheckIndex ≤ (SessionRestore st sess).1.sessionCheckIndex ∧
      (st.sessionIndex ≤ sess.CreateIndex →
        (SessionRestore st sess).1.sessionIndex = sess.CreateIndex) ∧
      (st.sessionCheckIndex ≤ sess.CreateIndex →
        (SessionRestore st sess).1.sessionCheckIndex = sess.CreateIndex)) := by
  constructor
  · intro st d
    exact ⟨rfl, rfl, rfl⟩
  · intro st sess
    refine ⟨rfl, rfl, rfl, Nat.le_max_left _ _, Nat.le_max_left _ _, ?_, ?_⟩
    · intro h; exact Nat.max_eq_right h
    · intro h; exact Nat.max_eq_right h

/-- C3 witness: a session restore carrying index 9 into watermark 4
raises the watermark to 9. -/
theorem restore_watermark_spec_witness :
    (SessionRestore { emptyStore with sessionIndex := 4 }
        { ID := "s1".data, Node := "n1".data, Name := [], Checks := [],
          CreateIndex := 9 }).1.sessionIndex = 9 :=
  ((restore_watermark_spec.2 { emptyStore with sessionIndex := 4 }
      { ID := "s1".data, Node := "n1".data, Name := [], Checks := [],
        CreateIndex := 9 }).2.2.2.2.2.1 (by decide))

/-! ## C4 -/

/-- C4: for a sequence of `KVSSet` writes and successful `KVSCheckAndSet`
writes to a single key, starting from a store where the key is absent,
the stored entry's `CreateIndex` is the index of the first write (which
introduced the key) and stays unchanged across the whole sequence, while
`ModifyIndex` is the index of the most recent write. -/
theorem kvs_write_index_evolution (st : StoreState) (k : Str) (w : KvsWrite)
    (ws : List KvsWrite) (hkeys : ∀ u ∈ w :: ws, u.key = k)
    (hok : allOk st (w :: ws) = true) (habs : kvsGet st.kvs k = none) :
    ∃ e, kvsGet (applyWrites st (w :: ws)).kvs k = some e ∧
      e.CreateIndex = w.idx ∧ e.ModifyIndex = lastIdx ws w.idx := by
  simp only [allOk, Bool.and_eq_true] at hok
  obtain ⟨e1, he1, hc1, hm1⟩ :=
    applyWrite_absent (hkeys w (List.mem_cons_self _ _)) hok.1 habs
  obtain ⟨e, he, hc, hm⟩ := applyWrites_preserve ws (applyWrite st w) k e1
    (fun u hu => hkeys u (List.mem_cons_of_mem _ hu)) hok.2 he1
  exact ⟨e, he, hc.trans hc1, by rw [hm, hm1]⟩

/-- C4 witness (the spec's scenario 3): `KVSSet(10, a/b)` then
`KVSSet(12, a/b)` stores CreateIndex 10, ModifyIndex 12. -/
theorem kvs_write_index_evolution_witness :
    ∃ e, kvsGet (applyWrites emptyStore
        [KvsWrite.set 10 (mkEntry "a/b"), KvsWrite.set 12 (mkEntry "a/b")]).kvs
        "a/b".data = some e ∧
      e.CreateIndex = (KvsWrite.set 10 (mkEntry "a/b")).idx ∧
      e.ModifyIndex = lastIdx [KvsWrite.set 12 (mkEntry "a/b")]
        (KvsWrite.set 10 (mkEntry "a/b")).idx :=
  kvs_write_index_evolution emptyStore ("a/b".data)
    (KvsWrite.set 10 (mkEntry "a/b")) [KvsWrite.set 12 (mkEntry "a/b")]
    (by decide) (by decide) (by decide)

/-! ## C5 -/

/-- C5: when the CAS precondition fails, `KVSCheckAndSet` returns `false`
with no error and the whole store unchanged: the stored entry is intact,
the kvs watermark is not updated, and no notification fires. -/
theorem kvs_cas_fail_frame (st : StoreState) (index : Nat) (d : DirEntry)
    (hfail : ¬ ((d.ModifyIndex = 0 ∧ kvsGet st.kvs d.Key = none) ∨
      (d.ModifyIndex > 0 ∧ ∃ e, kvsGet st.kvs d.Key = some e ∧
        e.ModifyIndex = d.ModifyIndex))) :
    KVSCheckAndSet st index d = (false, st, []) := by
  simp only [KVSCheckAndSet]
  split_ifs with h1 h2
  · rfl
  · rfl
  · exact absurd (cas_success_cond h1 h2) hfail

/-- C5 witness (the spec's scenario 4 failure): CAS with ModifyIndex 19
against a stored entry with ModifyIndex 20 fails and changes nothing. -/
theorem kvs_cas_fail_frame_witness :
    KVSCheckAndSet casDemoStore 23 { mkEntry "c" with ModifyIndex := 19 }
      = (false, casDemoStore, []) :=
  kvs_cas_fail_frame casDemoStore 23 { mkEntry "c" with ModifyIndex := 19 }
    (by decide)

/-! ## C6 -/

/-- The kvs rows in ascending byte-lexicographic key order (the invariant
the MDB `id` index maintains). -/
def kvsSorted (l : List DirEntry) : Prop :=
  List.Pairwise (fun a b => lexLt a.Key b.Key = true) l

/-- C6: `KVSListKeys(prefix, seperator)` emits, in ascending key order
without duplicates, each matching key truncated just past the first
occurrence of the seperator found after the prefix (`collapse`), keys
with no further seperator in full, all keys in full when the seperator is
empty; and on keys `{foo/a, foo/a/b, foo/a/c, foo/b, foo/b/d}`,
`KVSListKeys("foo/", "/")` yields exactly
`[foo/a, foo/a/, foo/b, foo/b/]`. -/
theorem kvs_list_keys_spec :
    ((KVSListKeys listDemoStore "foo/".data "/".data).2
        = ["foo/a".data, "foo/a/".data, "foo/b".data, "foo/b/".data]) ∧
    (∀ st pre sep v, v ∈ (KVSListKeys st pre sep).2 →
        ∃ e, e ∈ st.kvs ∧ isPre pre e.Key = true ∧ v = collapse pre sep e.Key) ∧
    (∀ st pre sep e, e ∈ st.kvs → isPre pre e.Key = true →
        collapse pre sep e.Key ∈ (KVSListKeys st pre sep).2) ∧
    (∀ st pre sep, kvsSorted st.kvs →
        List.Pairwise (fun a b => lexLt a b = true) (KVSListKeys st pre sep).2) ∧
    (∀ st pre, (KVSListKeys st pre []).2
        = (st.kvs.filter (fun e => isPre pre e.Key)).map (fun e => e.Key)) := by
  refine ⟨by decide, ?_, ?_, ?_, ?_⟩
  · intro st pre sep v hv
    simp only [KVSListKeys] at hv
    obtain ⟨e, he, hev⟩ := listKeysAux_sound _ _ v hv
    rw [List.mem_filter] at he
    exact ⟨e, he.1, he.2, hev⟩
  · intro st pre sep e he hp
    simp only [KVSListKeys]
    rcases listKeysAux_complete (st.kvs.filter (fun x => isPre pre x.Key)) [] e
        (List.mem_filter.2 ⟨he, hp⟩) with h | h
    · exact h
    · exfalso
      obtain ⟨hq, hsl0, hlen⟩ := h
      rw [hq] at hlen
      exact hsl0 (Nat.le_zero.mp hlen)
  · intro st pre sep hsort
    simp only [KVSListKeys]
    by_cases hsl : sep.length = 0
    · rw [listKeysAux_sepEmpty hsl]
      exact List.Pairwise.map _ (fun a b h => h) (hsort.filter _)
    · exact (listKeysAux_sorted hsl _ [] (hsort.filter _)
        (fun e _ => lexLt_nil _)).1
  · intro st pre
    simp only [KVSListKeys]
    exact @listKeysAux_sepEmpty pre [] rfl _ _

/-- C6 witness: `foo/a/b` matches `foo/` and its truncation `foo/a/` is
among the emitted keys. -/
theorem kvs_list_keys_spec_witness :
    collapse ("foo/".data) ("/".data) (mkEntry "foo/a/b").Key
      ∈ (KVSListKeys listDemoStore "foo/".data "/".data).2 :=
  kvs_list_keys_spec.2.2.1 listDemoStore "foo/".data "/".data (mkEntry "foo/a/b")
    (by decide) (by decide)

/-! ## C7 -/

theorem firstSessionCheckErr_cons_none {checks : List HealthCheck} {node c0 : Str}
    (rest : List Str)
    (hg : getBy (fun ch => (ch.Node, ch.CheckID)) (node, c0) checks = none) :
    firstSessionCheckErr checks node (c0 :: rest) = some (SessErr.missingCheck c0) := by
  simp only [firstSessionCheckErr]
  rw [hg]

theorem firstSessionCheckErr_cons_some {checks : List HealthCheck} {node c0 : Str}
    {ch : HealthCheck} (rest : List Str)
    (hg : getBy (fun ch => (ch.Node, ch.CheckID)) (node, c0) checks = some ch) :
    firstSessionCheckErr checks node (c0 :: rest) =
      if ch.Status = "critical".data then some (SessErr.criticalCheck c0)
      else firstSessionCheckErr checks node rest := by
  simp only [firstSessionCheckErr]
  rw [hg]

theorem firstSessionCheckErr_isSome : ∀ (cl : List Str) (checks : List HealthCheck)
    (node : Str),
    (∃ c ∈ cl, getBy (fun ch => (ch.Node, ch.CheckID)) (node, c) checks = none ∨
      ∃ ch, getBy (fun ch => (ch.Node, ch.CheckID)) (node, c) checks = some ch ∧
        ch.Status = "critical".data) →
    ∃ e, firstSessionCheckErr checks node cl = some e
  | [], _, _, h => by
    obtain ⟨c, hc, _⟩ := h
    exact absurd hc (List.not_mem_nil c)
  | c0 :: rest, checks, node, h => by
    obtain ⟨c, hc, hbad⟩ := h
    cases hg : getBy (fun ch => (ch.Node, ch.CheckID)) (node, c0) checks with
    | none => exact ⟨_, firstSessionCheckErr_cons_none rest hg⟩
    | some ch =>
      rw [firstSessionCheckErr_cons_some rest hg]
      by_cases hcrit : ch.Status = "critical".data
      · rw [if_pos hcrit]; exact ⟨_, rfl⟩
      · rw [if_neg hcrit]
        rcases List.mem_cons.1 hc with rfl | hc
        · rcases hbad with hnone | ⟨ch', hch', hcrit'⟩
          · rw [hg] at hnone; cases hnone
          · rw [hg] at hch'
            cases hch'
            exact absurd hcrit' hcrit
        · exact firstSessionCheckErr_isSome rest checks node ⟨c, hc, hbad⟩

theorem firstSessionCheckErr_isNone : ∀ (cl : List Str) (checks : List HealthCheck)
    (node : Str),
    (∀ c ∈ cl, ∃ ch, getBy (fun ch => (ch.Node, ch.CheckID)) (node, c) checks = some ch ∧
      ch.Status ≠ "critical".data) →
    firstSessionCheckErr checks node cl = none
  | [], _, _, _ => rfl
  | c0 :: rest, checks, node, h => by
    obtain ⟨ch, hch, hcrit⟩ := h c0 (List.mem_cons_self _ _)
    rw [firstSessionCheckErr_cons_some rest hch, if_neg hcrit]
    exact firstSessionCheckErr_isNone rest checks node
      (fun c hcm => h c (List.mem_cons_of_mem _ hcm))

theorem SessionCreate_node_missing {st : StoreState} {sess : Session}
    (index : Nat) (newId : Str) (fuel : Nat)
    (hn : getBy (fun n => n.Node) sess.Node st.nodes = none) :
    SessionCreate st index sess newId fuel = some (some SessErr.missingNode, st, []) := by
  simp only [SessionCreate]
  rw [hn]

theorem SessionCreate_check_err {st : StoreState} {sess : Session} {n : Node}
    {e : SessErr} (index : Nat) (newId : Str) (fuel : Nat)
    (hn : getBy (fun n => n.Node) sess.Node st.nodes = some n)
    (he : firstSessionCheckErr st.checks sess.Node sess.Checks = some e) :
    SessionCreate st index sess newId fuel = some (some e, st, []) := by
  simp only [SessionCreate]
  rw [hn, he]

theorem SessionCreate_ok {st : StoreState} {sess : Session} {n : Node} {id : Str}
    (index : Nat) (newId : Str) (fuel : Nat)
    (hn : getBy (fun n => n.Node) sess.Node st.nodes = some n)
    (he : firstSessionCheckErr st.checks sess.Node sess.Checks = none)
    (hl : sessionIdCheckLoop st.sessions newId fuel = some id) :
    SessionCreate st index sess newId fuel =
      some (none,
        { st with
          sessions := upsertBy (fun s => s.ID)
            { sess with CreateIndex := index, ID := id } st.sessions,
          sessionChecks := sess.Checks.foldl
            (fun acc c =>
              upsertBy (fun r => (r.Node, r.CheckID, r.Session))
                { Node := sess.Node, CheckID := c, Session := id } acc)
            st.sessionChecks,
          sessionIndex := index, sessionCheckIndex := index },
        [TableId.sessions, TableId.sessionChecks]) := by
  simp only [SessionCreate]
  rw [hn, he, hl]

/-- C7: `SessionCreate(index, session)` returns an error with the store
untouched and nothing notified whenever the session's node is
unregistered, a listed check has no row for that node, or a listed check
is exactly critical; and it succeeds (for an uncolliding fresh ID) when
the node exists and every listed check exists in any non-critical status
— for example `warning`. -/
theorem session_create_spec :
    (∀ st index sess newId fuel,
      (getBy (fun n => n.Node) sess.Node st.nodes = none ∨
        ∃ c ∈ sess.Checks,
          getBy (fun ch => (ch.Node, ch.CheckID)) (sess.Node, c) st.checks = none ∨
          ∃ ch, getBy (fun ch => (ch.Node, ch.CheckID)) (sess.Node, c) st.checks = some ch ∧
            ch.Status = "critical".data) →
      ∃ e, SessionCreate st index sess newId fuel = some (some e, st, [])) ∧
    (∀ st index sess newId,
      getBy (fun n => n.Node) sess.Node st.nodes ≠ none →
      (∀ c ∈ sess.Checks, ∃ ch,
        getBy (fun ch => (ch.Node, ch.CheckID)) (sess.Node, c) st.checks = some ch ∧
        ch.Status ≠ "critical".data) →
      getBy (fun s => s.ID) newId st.sessions = none →
      ∃ st', SessionCreate st index sess newId 1
          = some (none, st', [TableId.sessions, TableId.sessionChecks])) := by
  constructor
  · intro st index sess newId fuel h
    cases hn : getBy (fun n => n.Node) sess.Node st.nodes with
    | none => exact ⟨SessErr.missingNode, SessionCreate_node_missing index newId fuel hn⟩
    | some n =>
      rcases h with hnode | hbad
      · rw [hn] at hnode; cases hnode
      · obtain ⟨e, he⟩ := firstSessionCheckErr_isSome sess.Checks st.checks sess.Node hbad
        exact ⟨e, SessionCreate_check_err index newId fuel hn he⟩
  · intro st index sess newId hnode hchecks hid
    obtain ⟨n, hn⟩ := Option.ne_none_iff_exists'.1 hnode
    have hloop : sessionIdCheckLoop st.sessions newId 1 = some newId := by
      simp only [sessionIdCheckLoop]
      rw [hid]
    exact ⟨_, SessionCreate_ok index newId 1 hn
      (firstSessionCheckErr_isNone sess.Checks st.checks sess.Node hchecks) hloop⟩

/-- A store with node `n1` and a check `c1` in `warning` status. -/
def warnDemoStore : StoreState :=
  { emptyStore with
    nodes := [{ Node := "n1".data, Address := "10.0.0.1".data }],
    checks := [{ Node := "n1".data, CheckID := "c1".data, Name := "c1".data,
                 Status := "warning".data, Notes := [], ServiceID := [],
                 ServiceName := [] }] }

/-- C7 witness: a session on `n1` listing the `warning` check `c1`
succeeds — a non-critical, non-passing status does not cause failure. -/
theorem session_create_spec_witness :
    ∃ st', SessionCreate warnDemoStore 1
        { ID := [], Node := "n1".data, Name := [], Checks := ["c1".data],
          CreateIndex := 0 } "sid".data 1
      = some (none, st', [TableId.sessions, TableId.sessionChecks]) :=
  session_create_spec.2 warnDemoStore 1
    { ID := [], Node := "n1".data, Name := [], Checks := ["c1".data],
      CreateIndex := 0 } "sid".data
    (by decide) (by decide) (by decide)

/-! ## C8 -/

theorem EnsureCheck_node_missing {st : StoreState} {check : HealthCheck} (index : Nat)
    (hn : getBy (fun n => n.Node) check.Node st.nodes = none) :
    EnsureCheck st index check = (some CheckErr.missingNode, st, []) := by
  simp only [EnsureCheck]
  rw [hn]

theorem EnsureCheck_no_service {st : StoreState} {check : HealthCheck} {n : Node}
    (index : Nat)
    (hn : getBy (fun n => n.Node) check.Node st.nodes = some n)
    (hsid : check.ServiceID = []) :
    EnsureCheck st index check =
      (none,
       { st with
         checks := upsertBy (fun c => (c.Node, c.CheckID))
             ({ check with
                Status := if check.Status = [] then "unknown".data else check.Status })
             st.checks,
         checkIndex := index },
       [TableId.checks]) := by
  simp only [EnsureCheck]
  rw [hn, if_pos hsid]

theorem EnsureCheck_service_missing {st : StoreState} {check : HealthCheck} {n : Node}
    (index : Nat)
    (hn : getBy (fun n => n.Node) check.Node st.nodes = some n)
    (hsid : check.ServiceID ≠ [])
    (hsv : getBy (fun sv => (sv.Node, sv.ServiceID)) (check.Node, check.ServiceID)
        st.services = none) :
    EnsureCheck st index check = (some CheckErr.missingService, st, []) := by
  simp only [EnsureCheck]
  rw [hn, if_neg hsid, hsv]

theorem EnsureCheck_service_found {st : StoreState} {check : HealthCheck} {n : Node}
    {srv : ServiceNode} (index : Nat)
    (hn : getBy (fun n => n.Node) check.Node st.nodes = some n)
    (hsid : check.ServiceID ≠ [])
    (hsv : getBy (fun sv => (sv.Node, sv.ServiceID)) (check.Node, check.ServiceID)
        st.services = some srv) :
    EnsureCheck st index check =
      (none,
       { st with
         checks := upsertBy (fun c => (c.Node, c.CheckID))
             ({ check with
                Status := if check.Status = [] then "unknown".data else check.Status,
                ServiceName := srv.ServiceName })
             st.checks,
         checkIndex := index },
       [TableId.checks]) := by
  simp only [EnsureCheck]
  rw [hn, if_neg hsid, hsv]

/-- C8: `EnsureCheck(index, check)` defaults an empty Status to
`"unknown"`; errors (leaving the store untouched, notifying nothing) when
the node is missing, or when a non-empty ServiceID has no services row;
on success it upserts the (defaulted) check — with ServiceName overwritten
from the services row when ServiceID is non-empty — and sets the checks
watermark to `index`, notifying the checks watchers. -/
theorem ensure_check_spec :
    (∀ st index check,
      getBy (fun n => n.Node) check.Node st.nodes = none →
      EnsureCheck st index check = (some CheckErr.missingNode, st, [])) ∧
    (∀ st index check,
      getBy (fun n => n.Node) check.Node st.nodes ≠ none →
      check.ServiceID ≠ [] →
      getBy (fun sv => (sv.Node, sv.ServiceID)) (check.Node, check.ServiceID)
          st.services = none →
      EnsureCheck st index check = (some CheckErr.missingService, st, [])) ∧
    (∀ st index check,
      getBy (fun n => n.Node) check.Node st.nodes ≠ none →
      check.ServiceID = [] →
      EnsureCheck st index check =
        (none,
         { st with
           checks := upsertBy (fun c => (c.Node, c.CheckID))
               ({ check with
                  Status := if check.Status = [] then "unknown".data else check.Status })
               st.checks,
           checkIndex := index },
         [TableId.checks]) ∧
      getBy (fun c => (c.Node, c.CheckID)) (check.Node, check.CheckID)
          (EnsureCheck st index check).2.1.checks
        = some { check with
            Status := if check.Status = [] then "unknown".data else check.Status }) ∧
    (∀ st index check srv,
      getBy (fun n => n.Node) check.Node st.nodes ≠ none →
      check.ServiceID ≠ [] →
      getBy (fun sv => (sv.Node, sv.ServiceID)) (check.Node, check.ServiceID)
          st.services = some srv →
      (EnsureCheck st index check).1 = none ∧
      (EnsureCheck st index check).2.1.checkIndex = index ∧
      (EnsureCheck st index check).2.2 = [TableId.checks] ∧
      getBy (fun c => (c.Node, c.CheckID)) (check.Node, check.CheckID)
          (EnsureCheck st index check).2.1.checks
        = some { check with
            Status := if check.Status = [] then "unknown".data else check.Status,
            ServiceName := srv.ServiceName }) := by
  refine ⟨?_, ?_, ?_, ?_⟩
  · intro st index check hn
    exact EnsureCheck_node_missing index hn
  · intro st index check hn hsid hsv
    obtain ⟨n, hn'⟩ := Option.ne_none_iff_exists'.1 hn
    exact EnsureCheck_service_missing index hn' hsid hsv
  · intro st index check hn hsid
    obtain ⟨n, hn'⟩ := Option.ne_none_iff_exists'.1 hn
    refine ⟨EnsureCheck_no_service index hn' hsid, ?_⟩
    rw [EnsureCheck_no_service index hn' hsid]
    exact getBy_upsertBy (fun c => (c.Node, c.CheckID))
      ({ check with
         Status := if check.Status = [] then "unknown".data else check.Status })
      st.checks
  · intro st index check srv hn hsid hsv
    obtain ⟨n, hn'⟩ := Option.ne_none_iff_exists'.1 hn
    rw [EnsureCheck_service_found index hn' hsid hsv]
    refine ⟨rfl, rfl, rfl, ?_⟩
    exact getBy_upsertBy (fun c => (c.Node, c.CheckID))
      ({ check with
         Status := if check.Status = [] then "unknown".data else check.Status,
         ServiceName := srv.ServiceName })
      st.checks

/-- C8 witness: a check with empty Status on registered node `n1` is
stored with Status `"unknown"`. -/
theorem ensure_check_spec_witness :
    getBy (fun c => (c.Node, c.CheckID)) ("n1".data, "k1".data)
        (EnsureCheck warnDemoStore 3
          { Node := "n1".data, CheckID := "k1".data, Name := [], Status := [],
            Notes := [], ServiceID := [], ServiceName := [] }).2.1.checks
      = some { Node := "n1".data, CheckID := "k1".data, Name := [],
               Status := "unknown".data, Notes := [], ServiceID := [],
               ServiceName := [] } :=
  ((ensure_check_spec.2.2.1 warnDemoStore 3
      { Node := "n1".data, CheckID := "k1".data, Name := [], Status := [],
        Notes := [], ServiceID := [], ServiceName := [] }
      (by decide) (by decide)).2)

/-! ## C9 -/

/-- C9: every delete operation advances a table's watermark to the
supplied index and notifies that table's watchers exactly when at least
one row was removed from that table; a delete that removes nothing from a
table leaves its watermark unchanged and does not notify it.  The two KVS
wrappers resolve to `kvsDeleteWithIndex` with the corresponding match
predicate. -/
theorem delete_frame_spec :
    (∀ st index node id,
      (st.services.countP (fun s => decide (s.Node = node ∧ s.ServiceID = id)) > 0 →
        (DeleteNodeService st index node id).1.serviceIndex = index ∧
        TableId.services ∈ (DeleteNodeService st index node id).2) ∧
      (st.services.countP (fun s => decide (s.Node = node ∧ s.ServiceID = id)) = 0 →
        (DeleteNodeService st index node id).1.serviceIndex = st.serviceIndex ∧
        TableId.services ∉ (DeleteNodeService st index node id).2) ∧
      (st.checks.countP (fun c => decide (c.Node = node ∧ c.ServiceID = id)) > 0 →
        (DeleteNodeService st index node id).1.checkIndex = index ∧
        TableId.checks ∈ (DeleteNodeService st index node id).2) ∧
      (st.checks.countP (fun c => decide (c.Node = node ∧ c.ServiceID = id)) = 0 →
        (DeleteNodeService st index node id).1.checkIndex = st.checkIndex ∧
        TableId.checks ∉ (DeleteNodeService st index node id).2)) ∧
    (∀ st index node,
      (st.services.countP (fun s => decide (s.Node = node)) > 0 →
        (DeleteNode st index node).1.serviceIndex = index ∧
        TableId.services ∈ (DeleteNode st index node).2) ∧
      (st.services.countP (fun s => decide (s.Node = node)) = 0 →
        (DeleteNode st index node).1.serviceIndex = st.serviceIndex ∧
        TableId.services ∉ (DeleteNode st index node).2) ∧
      (st.checks.countP (fun c => decide (c.Node = node)) > 0 →
        (DeleteNode st index node).1.checkIndex = index ∧
        TableId.checks ∈ (DeleteNode st index node).2) ∧
      (st.checks.countP (fun c => decide (c.Node = node)) = 0 →
        (DeleteNode st index node).1.checkIndex = st.checkIndex ∧
        TableId.checks ∉ (DeleteNode st index node).2) ∧
      (st.nodes.countP (fun n => decide (n.Node = node)) > 0 →
        (DeleteNode st index node).1.nodeIndex = index ∧
        TableId.nodes ∈ (DeleteNode st index node).2) ∧
      (st.nodes.countP (fun n => decide (n.Node = node)) = 0 →
        (DeleteNode st index node).1.nodeIndex = st.nodeIndex ∧
        TableId.nodes ∉ (DeleteNode st index node).2)) ∧
    (∀ st index node id,
      (st.checks.countP (fun c => decide (c.Node = node ∧ c.CheckID = id)) > 0 →
        (DeleteNodeCheck st index node id).1.checkIndex = index ∧
        TableId.checks ∈ (DeleteNodeCheck st index node id).2) ∧
      (st.checks.countP (fun c => decide (c.Node = node ∧ c.CheckID = id)) = 0 →
        (DeleteNodeCheck st index node id).1.checkIndex = st.checkIndex ∧
        TableId.checks ∉ (DeleteNodeCheck st index node id).2)) ∧
    (∀ st index p,
      (st.kvs.countP p > 0 →
        (kvsDeleteWithIndex st index p).1.kvsIndex = index ∧
        TableId.kvs ∈ (kvsDeleteWithIndex st index p).2) ∧
      (st.kvs.countP p = 0 →
        (kvsDeleteWithIndex st index p).1.kvsIndex = st.kvsIndex ∧
        TableId.kvs ∉ (kvsDeleteWithIndex st index p).2)) ∧
    (∀ st index key, KVSDelete st index key
        = kvsDeleteWithIndex st index (fun e => decide (e.Key = key))) ∧
    (∀ st index pre, pre ≠ [] → KVSDeleteTree st index pre
        = kvsDeleteWithIndex st index (fun e => isPre pre e.Key)) ∧
    (∀ st index, KVSDeleteTree st index []
        = kvsDeleteWithIndex st index (fun _ => true)) := by
  refine ⟨?_, ?_, ?_, ?_, ?_, ?_, ?_⟩
  · intro st index node id
    by_cases hS : st.services.countP (fun s => decide (s.Node = node ∧ s.ServiceID = id)) > 0 <;>
      by_cases hC : st.checks.countP (fun c => decide (c.Node = node ∧ c.ServiceID = id)) > 0
    · simp only [DeleteNodeService, deleteWhere, if_pos hS, if_pos hC]
      exact ⟨fun _ => ⟨by simp, by simp⟩, fun h0 => absurd h0 (Nat.pos_iff_ne_zero.mp hS),
        fun _ => ⟨by simp, by simp⟩, fun h0 => absurd h0 (Nat.pos_iff_ne_zero.mp hC)⟩
    · simp only [DeleteNodeService, deleteWhere, if_pos hS, if_neg hC]
      exact ⟨fun _ => ⟨by simp, by simp⟩, fun h0 => absurd h0 (Nat.pos_iff_ne_zero.mp hS),
        fun h => absurd h hC, fun _ => ⟨by simp, by simp⟩⟩
    · simp only [DeleteNodeService, deleteWhere, if_neg hS, if_pos hC]
      exact ⟨fun h => absurd h hS, fun _ => ⟨by simp, by simp⟩,
        fun _ => ⟨by simp, by simp⟩, fun h0 => absurd h0 (Nat.pos_iff_ne_zero.mp hC)⟩
    · simp only [DeleteNodeService, deleteWhere, if_neg hS, if_neg hC]
      exact ⟨fun h => absurd h hS, fun _ => ⟨by simp, by simp⟩,
        fun h => absurd h hC, fun _ => ⟨by simp, by simp⟩⟩
  · intro st index node
    by_cases hS : st.services.countP (fun s => decide (s.Node = node)) > 0 <;>
      by_cases hC : st.checks.countP (fun c => decide (c.Node = node)) > 0 <;>
        by_cases hN : st.nodes.countP (fun n => decide (n.Node = node)) > 0
    · simp only [DeleteNode, deleteWhere, if_pos hS, if_pos hC, if_pos hN]
      exact ⟨fun _ => ⟨by simp, by simp⟩, fun h0 => absurd h0 (Nat.pos_iff_ne_zero.mp hS),
        fun _ => ⟨by simp, by simp⟩, fun h0 => absurd h0 (Nat.pos_iff_ne_zero.mp hC),
        fun _ => ⟨by simp, by simp⟩, fun h0 => absurd h0 (Nat.pos_iff_ne_zero.mp hN)⟩
    · simp only [DeleteNode, deleteWhere, if_pos hS, if_pos hC, if_neg hN]
      exact ⟨fun _ => ⟨by simp, by simp⟩, fun h0 => absurd h0 (Nat.pos_iff_ne_zero.mp hS),
        fun _ => ⟨by simp, by simp⟩, fun h0 => absurd h0 (Nat.pos_iff_ne_zero.mp hC),
        fun h => absurd h hN, fun _ => ⟨by simp, by simp⟩⟩
    · simp only [DeleteNode, deleteWhere, if_pos hS, if_neg hC, if_pos hN]
      exact ⟨fun _ => ⟨by simp, by simp⟩, fun h0 => absurd h0 (Nat.pos_iff_ne_zero.mp hS),
        fun h => absurd h hC, fun _ => ⟨by simp, by simp⟩,
        fun _ => ⟨by simp, by simp⟩, fun h0 => absurd h0 (Nat.pos_iff_ne_zero.mp hN)⟩
    · simp only [DeleteNode, deleteWhere, if_pos hS, if_neg hC, if_neg hN]
      exact ⟨fun _ => ⟨by simp, by simp⟩, fun h0 => absurd h0 (Nat.pos_iff_ne_zero.mp hS),
        fun h => absurd h hC, fun _ => ⟨by simp, by simp⟩,
        fun h => absurd h hN, fun _ => ⟨by simp, by simp⟩⟩
    · simp only [DeleteNode, deleteWhere, if_neg hS, if_pos hC, if_pos hN]
      exact ⟨fun h => absurd h hS, fun _ => ⟨by simp, by simp⟩,
        fun _ => ⟨by simp, by simp⟩, fun h0 => absurd h0 (Nat.pos_iff_ne_zero.mp hC),
        fun _ => ⟨by simp, by simp⟩, fun h0 => absurd h0 (Nat.pos_iff_ne_zero.mp hN)⟩
    · simp only [DeleteNode, deleteWhere, if_neg hS, if_pos hC, if_neg hN]
      exact ⟨fun h => absurd h hS, fun _ => ⟨by simp, by simp⟩,
        fun _ => ⟨by simp, by simp⟩, fun h0 => absurd h0 (Nat.pos_iff_ne_zero.mp hC),
        fun h => absurd h hN, fun _ => ⟨by simp, by simp⟩⟩
    · simp only [DeleteNode, deleteWhere, if_neg hS, if_neg hC, if_pos hN]
      exact ⟨fun h => absurd h hS, fun _ => ⟨by simp, by simp⟩,
        fun h => absurd h hC, fun _ => ⟨by simp, by simp⟩,
        fun _ => ⟨by simp, by simp⟩, fun h0 => absurd h0 (Nat.pos_iff_ne_zero.mp hN)⟩
    · simp only [DeleteNode, deleteWhere, if_neg hS, if_neg hC, if_neg hN]
      exact ⟨fun h => absurd h hS, fun _ => ⟨by simp, by simp⟩,
        fun h => absurd h hC, fun _ => ⟨by simp, by simp⟩,
        fun h => absurd h hN, fun _ => ⟨by simp, by simp⟩⟩
  · intro st index node id
    by_cases hC : st.checks.countP (fun c => decide (c.Node = node ∧ c.CheckID = id)) > 0
    · simp only [DeleteNodeCheck, deleteWhere, if_pos hC]
      exact ⟨fun _ => ⟨by simp, by simp⟩, fun h0 => absurd h0 (Nat.pos_iff_ne_zero.mp hC)⟩
    · simp only [DeleteNodeCheck, deleteWhere, if_neg hC]
      exact ⟨fun h => absurd h hC, fun _ => ⟨by simp, by simp⟩⟩
  · intro st index p
    by_cases hK : st.kvs.countP p > 0
    · simp only [kvsDeleteWithIndex, deleteWhere, if_pos hK]
      exact ⟨fun _ => ⟨by simp, by simp⟩, fun h0 => absurd h0 (Nat.pos_iff_ne_zero.mp hK)⟩
    · simp only [kvsDeleteWithIndex, deleteWhere, if_neg hK]
      exact ⟨fun h => absurd h hK, fun _ => ⟨by simp, by simp⟩⟩
  · intro st index key
    rfl
  · intro st index pre hpre
    simp [KVSDeleteTree, hpre]
  · intro st index
    rfl

/-- C9 witness: deleting the only row for node `n1`'s check `c1` advances
the checks watermark to 6 and notifies the checks watchers. -/
theorem delete_frame_spec_witness :
    (DeleteNodeCheck warnDemoStore 6 "n1".data "c1".data).1.checkIndex = 6 ∧
    TableId.checks ∈ (DeleteNodeCheck warnDemoStore 6 "n1".data "c1".data).2 :=
  (delete_frame_spec.2.2.1 warnDemoStore 6 ("n1".data) ("c1".data)).1 (by decide)

/-! ## C10 -/

/-- C10: the service queries return exactly one element per matching (and
tag-filtered) service row; a row whose node join fails contributes a
zero-valued element at its position rather than being omitted, so the
result length always equals the number of matching rows. -/
theorem parse_service_nodes_spec :
    (∀ nodes res, (parseServiceNodes nodes res).length = res.length) ∧
    (∀ nodes checks res, (parseCheckServiceNodes nodes checks res).length = res.length) ∧
    (∀ nodes res (i : Nat) srv, res[i]? = some srv →
      getBy (fun n => n.Node) srv.Node nodes = none →
      (parseServiceNodes nodes res)[i]? = some zeroServiceNode) ∧
    (∀ nodes checks res (i : Nat) srv, res[i]? = some srv →
      getBy (fun n => n.Node) srv.Node nodes = none →
      (parseCheckServiceNodes nodes checks res)[i]? = some zeroCheckServiceNode) ∧
    (∀ nodes res (i : Nat) srv nd, res[i]? = some srv →
      getBy (fun n => n.Node) srv.Node nodes = some nd →
      (parseServiceNodes nodes res)[i]? = some { srv with Address := nd.Address }) ∧
    (∀ st service, (ServiceNodes st service).2.length
        = (st.services.filter (fun s => decide (s.ServiceName = service))).length) ∧
    (∀ st service tag, (ServiceTagNodes st service tag).2.length
        = (serviceTagFilter (st.services.filter
            (fun s => decide (s.ServiceName = service))) tag).length) ∧
    (∀ st service, (CheckServiceNodes st service).2.length
        = (st.services.filter (fun s => decide (s.ServiceName = service))).length) ∧
    (∀ st service tag, (CheckServiceTagNodes st service tag).2.length
        = (serviceTagFilter (st.services.filter
            (fun s => decide (s.ServiceName = service))) tag).length) := by
  refine ⟨?_, ?_, ?_, ?_, ?_, ?_, ?_, ?_, ?_⟩
  · intro nodes res
    simp [parseServiceNodes]
  · intro nodes checks res
    simp [parseCheckServiceNodes]
  · intro nodes res i srv hres hget
    simp only [parseServiceNodes, List.getElem?_map, hres, Option.map_some']
    rw [hget]
  · intro nodes checks res i srv hres hget
    simp only [parseCheckServiceNodes, List.getElem?_map, hres, Option.map_some']
    rw [hget]
  · intro nodes res i srv nd hres hget
    simp only [parseServiceNodes, List.getElem?_map, hres, Option.map_some']
    rw [hget]
  · intro st service
    simp [ServiceNodes, parseServiceNodes]
  · intro st service tag
    simp [ServiceTagNodes, parseServiceNodes]
  · intro st service
    simp [CheckServiceNodes, parseCheckServiceNodes]
  · intro st service tag
    simp [CheckServiceTagNodes, parseCheckServiceNodes]

/-- C10 witness: with no nodes registered, a one-row result joins to the
zero-valued record (and is not dropped). -/
theorem parse_service_nodes_spec_witness :
    (parseServiceNodes []
        [{ zeroServiceNode with Node := "nX".data, ServiceID := "web".data }])[0]?
      = some zeroServiceNode :=
  parse_service_nodes_spec.2.2.1 []
    [{ zeroServiceNode with Node := "nX".data, ServiceID := "web".data }] 0
    { zeroServiceNode with Node := "nX".data, ServiceID := "web".data }
    (by decide) (by decide)

end Consul
